import Mathlib

/-!
Verification development for the upjobs ETL pipeline.

We shallowly embed the Python source (src/upjobs) into Lean:
JSON-like values become the inductive `Value`; Python dicts become
association lists with unique keys; fallible Python code (code that can
raise) returns `Except String α` where the error string names the Python
exception.  Numbers are modelled as integers (`Int`); fractional floats
are outside the model's value grammar, which is harmless for every
property treated here.  String escaping in `pyRepr`/`jsonDumps` is
simplified (no escape sequences), which is likewise irrelevant to the
properties proved.
-/

/-- JSON-like Python value: None, bool, int, str, list, dict. -/
inductive Value where
  | vnull : Value
  | vbool : Bool → Value
  | vint : Int → Value
  | vstr : String → Value
  | vlist : List Value → Value
  | vdict : List (String × Value) → Value

mutual
/-- Decidable structural equality on values. -/
def decEqValue : (a b : Value) → Decidable (a = b)
  | .vnull, .vnull => isTrue rfl
  | .vbool a, .vbool b =>
      if h : a = b then isTrue (by rw [h]) else isFalse (by intro he; injection he; contradiction)
  | .vint a, .vint b =>
      if h : a = b then isTrue (by rw [h]) else isFalse (by intro he; injection he; contradiction)
  | .vstr a, .vstr b =>
      if h : a = b then isTrue (by rw [h]) else isFalse (by intro he; injection he; contradiction)
  | .vlist a, .vlist b =>
      match decEqValueList a b with
      | isTrue h => isTrue (by rw [h])
      | isFalse h => isFalse (by intro he; injection he; contradiction)
  | .vdict a, .vdict b =>
      match decEqValueFields a b with
      | isTrue h => isTrue (by rw [h])
      | isFalse h => isFalse (by intro he; injection he; contradiction)
  | .vnull, .vbool _ => isFalse (fun h => Value.noConfusion h)
  | .vnull, .vint _ => isFalse (fun h => Value.noConfusion h)
  | .vnull, .vstr _ => isFalse (fun h => Value.noConfusion h)
  | .vnull, .vlist _ => isFalse (fun h => Value.noConfusion h)
  | .vnull, .vdict _ => isFalse (fun h => Value.noConfusion h)
  | .vbool _, .vnull => isFalse (fun h => Value.noConfusion h)
  | .vbool _, .vint _ => isFalse (fun h => Value.noConfusion h)
  | .vbool _, .vstr _ => isFalse (fun h => Value.noConfusion h)
  | .vbool _, .vlist _ => isFalse (fun h => Value.noConfusion h)
  | .vbool _, .vdict _ => isFalse (fun h => Value.noConfusion h)
  | .vint _, .vnull => isFalse (fun h => Value.noConfusion h)
  | .vint _, .vbool _ => isFalse (fun h => Value.noConfusion h)
  | .vint _, .vstr _ => isFalse (fun h => Value.noConfusion h)
  | .vint _, .vlist _ => isFalse (fun h => Value.noConfusion h)
  | .vint _, .vdict _ => isFalse (fun h => Value.noConfusion h)
  | .vstr _, .vnull => isFalse (fun h => Value.noConfusion h)
  | .vstr _, .vbool _ => isFalse (fun h => Value.noConfusion h)
  | .vstr _, .vint _ => isFalse (fun h => Value.noConfusion h)
  | .vstr _, .vlist _ => isFalse (fun h => Value.noConfusion h)
  | .vstr _, .vdict _ => isFalse (fun h => Value.noConfusion h)
  | .vlist _, .vnull => isFalse (fun h => Value.noConfusion h)
  | .vlist _, .vbool _ => isFalse (fun h => Value.noConfusion h)
  | .vlist _, .vint _ => isFalse (fun h => Value.noConfusion h)
  | .vlist _, .vstr _ => isFalse (fun h => Value.noConfusion h)
  | .vlist _, .vdict _ => isFalse (fun h => Value.noConfusion h)
  | .vdict _, .vnull => isFalse (fun h => Value.noConfusion h)
  | .vdict _, .vbool _ => isFalse (fun h => Value.noConfusion h)
  | .vdict _, .vint _ => isFalse (fun h => Value.noConfusion h)
  | .vdict _, .vstr _ => isFalse (fun h => Value.noConfusion h)
  | .vdict _, .vlist _ => isFalse (fun h => Value.noConfusion h)

/-- Decidable equality on lists of values. -/
def decEqValueList : (a b : List Value) → Decidable (a = b)
  | [], [] => isTrue rfl
  | [], _ :: _ => isFalse (fun h => List.noConfusion h)
  | _ :: _, [] => isFalse (fun h => List.noConfusion h)
  | a :: as, b :: bs =>
      match decEqValue a b, decEqValueList as bs with
      | isTrue h1, isTrue h2 => isTrue (by rw [h1, h2])
      | isFalse h1, _ => isFalse (by intro he; injection he; contradiction)
      | _, isFalse h2 => isFalse (by intro he; injection he; contradiction)

/-- Decidable equality on dict field lists. -/
def decEqValueFields : (a b : List (String × Value)) → Decidable (a = b)
  | [], [] => isTrue rfl
  | [], _ :: _ => isFalse (fun h => List.noConfusion h)
  | _ :: _, [] => isFalse (fun h => List.noConfusion h)
  | (k, v) :: as, (k', v') :: bs =>
      if hk : k = k' then
        match decEqValue v v', decEqValueFields as bs with
        | isTrue h1, isTrue h2 => isTrue (by rw [hk, h1, h2])
        | isFalse h1, _ => isFalse (by
            intro he; injection he with he1 he2
            exact h1 (congrArg Prod.snd he1))
        | _, isFalse h2 => isFalse (by intro he; injection he; contradiction)
      else isFalse (by
        intro he; injection he with he1 he2
        exact hk (congrArg Prod.fst he1))
end

instance : DecidableEq Value := decEqValue

/-- A Python dict with string keys (keys unique by construction in dicts). -/
abbrev Rec := List (String × Value)

/-- Python truthiness: None, False, 0, "", [] and {} are falsy. -/
def truthy : Value → Bool
  | .vnull => false
  | .vbool b => b
  | .vint n => n ≠ 0
  | .vstr s => s ≠ ""
  | .vlist xs => !xs.isEmpty
  | .vdict fs => !fs.isEmpty

/-- Python `d.get(k)`: the stored value, or None when the key is absent. -/
def dget (r : Rec) (k : String) : Value :=
  (List.lookup k r).getD .vnull

/-- Python `a or b`: `a` when truthy, else `b`. -/
def pyOr (a b : Value) : Value :=
  if truthy a then a else b

/-- Python dict assignment `m[k] = v`: overwrite in place, else append. -/
def assocSet {α : Type} (m : List (String × α)) (k : String) (v : α) :
    List (String × α) :=
  match m with
  | [] => [(k, v)]
  | (k', v') :: t => if k' = k then (k, v) :: t else (k', v') :: assocSet t k v

mutual
/-- Python `str(v)`. -/
def pyStr : Value → String
  | .vstr s => s
  | v => pyRepr v

/-- Python `repr(v)` (string escaping simplified away). -/
def pyRepr : Value → String
  | .vnull => "None"
  | .vbool b => if b then "True" else "False"
  | .vint n => toString n
  | .vstr s => String.singleton (Char.ofNat 39) ++ s ++ String.singleton (Char.ofNat 39)
  | .vlist xs => "[" ++ String.intercalate ", " (pyReprList xs) ++ "]"
  | .vdict fs => "\x7b" ++ String.intercalate ", " (pyReprFields fs) ++ "\x7d"

/-- Reprs of the elements of a list value. -/
def pyReprList : List Value → List String
  | [] => []
  | v :: t => pyRepr v :: pyReprList t

/-- Reprs of the fields of a dict value. -/
def pyReprFields : List (String × Value) → List String
  | [] => []
  | (k, v) :: t =>
      (String.singleton (Char.ofNat 39) ++ k ++ String.singleton (Char.ofNat 39)
        ++ ": " ++ pyRepr v) :: pyReprFields t
end

mutual
/-- Python `json.dumps(v, ensure_ascii=False)` (string escaping simplified away). -/
def jsonDumps : Value → String
  | .vnull => "null"
  | .vbool b => if b then "true" else "false"
  | .vint n => toString n
  | .vstr s => "\"" ++ s ++ "\""
  | .vlist xs => "[" ++ String.intercalate ", " (jsonDumpsList xs) ++ "]"
  | .vdict fs => "\x7b" ++ String.intercalate ", " (jsonDumpsFields fs) ++ "\x7d"

/-- JSON serializations of the elements of a list value. -/
def jsonDumpsList : List Value → List String
  | [] => []
  | v :: t => jsonDumps v :: jsonDumpsList t

/-- JSON serializations of the fields of a dict value. -/
def jsonDumpsFields : List (String × Value) → List String
  | [] => []
  | (k, v) :: t => ("\"" ++ k ++ "\": " ++ jsonDumps v) :: jsonDumpsFields t
end

mutual
/-- Python `==` (numeric cross-equality between bool and int, as in Python). -/
def pyEq : Value → Value → Bool
  | .vnull, .vnull => true
  | .vbool a, .vbool b => a = b
  | .vbool a, .vint n => (if a then (1 : Int) else 0) = n
  | .vint n, .vbool a => n = (if a then (1 : Int) else 0)
  | .vint m, .vint n => m = n
  | .vstr s, .vstr t => s = t
  | .vlist xs, .vlist ys => pyEqList xs ys
  | .vdict xs, .vdict ys => pyEqFields xs ys
  | _, _ => false

def pyEqList : List Value → List Value → Bool
  | [], [] => true
  | x :: xs, y :: ys => pyEq x y && pyEqList xs ys
  | _, _ => false

def pyEqFields : List (String × Value) → List (String × Value) → Bool
  | [], [] => true
  | (k, v) :: xs, (k', v') :: ys => k = k' && pyEq v v' && pyEqFields xs ys
  | _, _ => false
end

/-- Python `s.strip()`: drop leading and trailing whitespace. -/
def pyStrip (s : String) : String :=
  ⟨((s.data.dropWhile Char.isWhitespace).reverse.dropWhile Char.isWhitespace).reverse⟩

/-- Python `s.lower()` (the strings involved are ASCII). -/
def pyLower (s : String) : String :=
  ⟨s.data.map Char.toLower⟩

/-- Parses a non-empty all-digit run. -/
def digitsToNat? (cs : List Char) : Option Nat :=
  if cs ≠ [] ∧ cs.all (·.isDigit) then
    some (cs.foldl (fun a c => a * 10 + (c.toNat - 48)) 0)
  else none

/-- Python `int(s)` for an already-stripped string: optional sign and a
non-empty digit run; anything else is a ValueError (None here). -/
def pyToInt (s : String) : Option Int :=
  match s.data with
  | '-' :: t => (digitsToNat? t).map fun n => -(n : Int)
  | '+' :: t => (digitsToNat? t).map fun n => (n : Int)
  | cs => (digitsToNat? cs).map fun n => (n : Int)

/-- Last index at which a character occurs. -/
def lastIdxOfChar : List Char → Char → Option Nat
  | [], _ => none
  | c :: t, x =>
      match lastIdxOfChar t x with
      | some j => some (j + 1)
      | none => if c = x then some 0 else none

/-- Python `s.split(sep)` for a one-character separator and no maxsplit. -/
def splitOnChar (cs : List Char) (sep : Char) : List (List Char) :=
  match cs with
  | [] => [[]]
  | c :: t =>
      let r := splitOnChar t sep
      if c = sep then [] :: r else (c :: r.headD []) :: r.tail

/-- Python attribute-style `v.get(k)`: only dicts have `.get`; any other
receiver raises `AttributeError`. -/
def pyGet (v : Value) (k : String) : Except String Value :=
  match v with
  | .vdict fs => .ok (dget fs k)
  | _ => .error "AttributeError: object has no attribute get"

/-- State machine equivalent to one left-to-right pass of
`re.sub(r"<.*?>", "", text)`: on seeing `<` start buffering; a `>` closes
the (non-greedy) tag and the buffered span is dropped; a newline or the end
of input means the pending `<` cannot be part of a match (`.` does not
match newlines), so the buffer is emitted literally. -/
def stripTagsGo : List Char → Option (List Char) → List Char
  | [], none => []
  | [], some pend => pend.reverse
  | c :: t, none =>
      if c = '<' then stripTagsGo t (some [c]) else c :: stripTagsGo t none
  | c :: t, some pend =>
      if c = '>' then stripTagsGo t none
      else if c = '\n' then pend.reverse ++ c :: stripTagsGo t none
      else stripTagsGo t (some (c :: pend))

/-- Python `re.sub(r"<.*?>", "", s)`. -/
def stripTags (s : String) : String :=
  ⟨stripTagsGo s.data none⟩

/-- Inner helper `strip_html` of `flatten_record`: strip tags from strings,
pass anything else through. -/
def strip_html (v : Value) : Value :=
  match v with
  | .vstr s => .vstr (stripTags s)
  | v => v

/-- Helper `after_last_dot`: for a string containing a dot, keep only the
substring after the final dot (`s.rsplit(".", 1)[-1]`); otherwise pass
through. -/
def after_last_dot (v : Value) : Value :=
  match v with
  | .vstr s =>
      match lastIdxOfChar s.data '.' with
      | some i => .vstr ⟨s.data.drop (i + 1)⟩
      | none => .vstr s
  | v => v

/-- Helper `between_underscores`: for underscore-delimited strings with more
than two segments keep only the second segment; otherwise pass through. -/
def between_underscores (v : Value) : Value :=
  match v with
  | .vstr s =>
      let parts := splitOnChar s.data '_'
      if parts.length > 2 then .vstr ⟨parts.getD 1 []⟩ else .vstr s
  | v => v

/-- Helper `safe_float`: `float(val)` with TypeError/ValueError mapped to
None.  The model's value grammar has integers only, so a numeric string
parses when it denotes an integer. -/
def safe_float (v : Value) : Option Value :=
  match v with
  | .vint n => some (.vint n)
  | .vbool b => some (.vint (if b then 1 else 0))
  | .vstr s => (pyToInt (pyStrip s)).map .vint
  | _ => none

/-- Helper `get_job_type`: the fixed lookup table `{1: "fixed", 2: "hourly"}`
applied with `.get(value)`.  In Python `True == 1`, so a `True` key hits the
`"fixed"` entry; unhashable keys (lists, dicts) raise TypeError. -/
def get_job_type (v : Value) : Except String Value :=
  match v with
  | .vint 1 => .ok (.vstr "fixed")
  | .vint 2 => .ok (.vstr "hourly")
  | .vbool true => .ok (.vstr "fixed")
  | .vlist _ => .error "TypeError: unhashable type"
  | .vdict _ => .error "TypeError: unhashable type"
  | _ => .ok .vnull

/-- Helper `extract_skill_names`: from a list of attribute dicts keep each
truthy `prettyName`; a non-list input yields the empty list. -/
def extract_skill_names (attrs : Value) : List Value :=
  match attrs with
  | .vlist xs =>
      xs.filterMap fun a =>
        match a with
        | .vdict fs => if truthy (dget fs "prettyName") then some (dget fs "prettyName") else none
        | _ => none
  | _ => []

/-- Conservative model of `json.loads`: parses the scalar fragment
(null, booleans, integers); anything else is a parse failure.  In the
source a parse failure leaves the raw string untouched, so
under-approximating the set of parses only moves some inputs into that
(equally silent) fallback branch; no claim inspects this field. -/
def jsonLoads (s : String) : Option Value :=
  let t := pyStrip s
  if t = "null" then some .vnull
  else if t = "true" then some (.vbool true)
  else if t = "false" then some (.vbool false)
  else (pyToInt t).map .vint

/-- Translation of `flatten_record` (src/upjobs/processing.py, lines 18-128).
Statements that can raise are sequenced in source order in the `Except`
monad; the error string names the Python exception. -/
def flatten_record (record : Rec) : Except String Rec := do
  let job_id := pyOr (dget record "uid") (pyOr (dget record "jobId") (dget record "id"))
  let url :=
    if truthy (dget record "ciphertext") then
      .vstr ("https://www.upwork.com/jobs/" ++ pyStr (dget record "ciphertext"))
    else pyOr (dget record "url") (dget record "jobLink")
  -- Currency: (record.get("amount") or {}).get("currencyCode")
  --        or (record.get("hourlyBudget") or {}).get("currencyCode") or "USD"
  let c1 ← pyGet (pyOr (dget record "amount") (.vdict [])) "currencyCode"
  let currency ←
    if truthy c1 then pure c1
    else do
      let c2 ← pyGet (pyOr (dget record "hourlyBudget") (.vdict [])) "currencyCode"
      pure (pyOr c2 (.vstr "USD"))
  -- Skills: prefer attrs[].prettyName; fallback to record["skills"]
  let skills0 := extract_skill_names (dget record "attrs")
  let skills :=
    if skills0.isEmpty then
      match dget record "skills" with
      | .vlist xs =>
          xs.filterMap fun s =>
            match s with
            | .vdict fs => some (pyOr (dget fs "prettyName") (dget fs "name"))
            | _ => none
      | _ => skills0
    else skills0
  -- Engagement
  let engagement0 := dget record "engagement"
  let engagement :=
    if ¬ truthy engagement0 then
      match dget record "posting" with
      | .vdict fs => dget fs "engagement"
      | _ => engagement0
    else engagement0
  -- Client
  let client := pyOr (dget record "client") (.vdict [])
  let client_country :=
    match client with
    | .vdict fs =>
        match pyOr (dget fs "location") (.vdict []) with
        | .vdict lfs => dget lfs "country"
        | _ => dget fs "country"
    | _ => .vnull
  let cts ← pyGet client "totalSpent"
  let client_total_spent := (safe_float cts).getD .vnull
  let cpv0 ← pyGet client "isPaymentVerified"
  let client_payment_verified ←
    match cpv0 with
    | .vnull => do
        let pvs ← pyGet client "paymentVerificationStatus"
        pure (Value.vbool (pyEq pvs (.vstr "VERIFIED") || pyEq pvs (.vbool true)))
    | v => pure v
  let client_total_reviews ← pyGet client "totalReviews"
  let tf ← pyGet client "totalFeedback"
  let client_avg_feedback ←
    if truthy tf then pure tf
    else do
      let rt ← pyGet client "rating"
      pure rt
  -- Budgets
  let amount := pyOr (dget record "amount") (.vdict [])
  let hourly_budget := pyOr (dget record "hourlyBudget") (.vdict [])
  let weekly_budget ← pyGet (pyOr (dget record "weeklyBudget") (.vdict [])) "amount"
  -- STS flag, relevance
  let is_sts0 := dget record "isSTSVectorSearchResult"
  let is_sts :=
    match is_sts0 with
    | .vnull => dget record "isStsVectorSearchResult"
    | v => v
  let relevance0 := dget record "relevanceEncoded"
  let relevance :=
    match relevance0 with
    | .vstr s => (jsonLoads s).getD (.vstr s)
    | v => v
  -- Remaining raising expressions of the output dict literal, in order
  let job_type ← get_job_type (dget record "type")
  let fixed_budget ← pyGet amount "amount"
  let hourly_budget_min ← pyGet hourly_budget "min"
  let hourly_budget_max ← pyGet hourly_budget "max"
  .ok
    [ ("job_id", match job_id with | .vnull => .vnull | v => .vstr (pyStr v)),
      ("url", url),
      ("title", strip_html (dget record "title")),
      ("description", strip_html (dget record "description")),
      ("skills", .vlist skills),
      ("created_on", dget record "createdOn"),
      ("published_on", dget record "publishedOn"),
      ("renewed_on", dget record "renewedOn"),
      ("duration_label", dget record "durationLabel"),
      ("connect_price", dget record "connectPrice"),
      ("job_type", job_type),
      ("engagement", after_last_dot engagement),
      ("proposals_tier", after_last_dot (dget record "proposalsTier")),
      ("tier_text", between_underscores (dget record "tierText")),
      ("fixed_budget", fixed_budget),
      ("weekly_budget", weekly_budget),
      ("hourly_budget_min", hourly_budget_min),
      ("hourly_budget_max", hourly_budget_max),
      ("currency", currency),
      ("client_country", client_country),
      ("client_total_spent", client_total_spent),
      ("client_payment_verified", client_payment_verified),
      ("client_total_reviews", client_total_reviews),
      ("client_avg_feedback", client_avg_feedback),
      ("is_sts_vector_search_result", is_sts),
      ("relevance_encoded", relevance),
      ("is_applied", .vbool (truthy (dget record "isApplied"))) ]

/-- Numeric value of a digit run. -/
def natOfDigits (cs : List Char) : Nat :=
  cs.foldl (fun a c => a * 10 + (c.toNat - 48)) 0

/-- Checks that `after` has the shape `<digits>.json` with a non-empty digit
run, returning the page number (the tail `(?P<page>\d+)\.json$` of the strict
filename pattern). -/
def checkPageTail (after : List Char) : Option Nat :=
  let n := after.length
  if n < 6 then none
  else
    let p := after.take (n - 5)
    if after.drop (n - 5) = ".json".data ∧ p ≠ [] ∧ p.all (·.isDigit) then
      some (natOfDigits p)
    else none

/-- Lazy-query split for the strict pattern: the shortest prefix `q` (which,
matching `.*?`, may not contain a newline) such that the rest is
`-page<digits>.json`.  Mirrors the backtracking of
`^(\d{14,17})-(.*?)-page(\d+)\.json$` after the digit run. -/
def findStrictSplit : List Char → Option (List Char × Nat)
  | [] => none
  | c :: t =>
      if (c :: t).take 5 = "-page".data then
        match checkPageTail ((c :: t).drop 5) with
        | some p => some ([], p)
        | none =>
            if c = '\n' then none
            else (findStrictSplit t).map fun qp => (c :: qp.1, qp.2)
      else if c = '\n' then none
      else (findStrictSplit t).map fun qp => (c :: qp.1, qp.2)

/-- Lazy-query split for the relaxed pattern: the shortest prefix `q` (no
newline) such that the rest is exactly `-page` or `-page.json`. -/
def findRelaxedSplit : List Char → Option (List Char)
  | [] => none
  | c :: t =>
      if c :: t = "-page".data ∨ c :: t = "-page.json".data then some []
      else if c = '\n' then none
      else (findRelaxedSplit t).map fun q => c :: q

/-- Attempts the strict pattern with a fixed length `dlen` for the greedy
leading digit run. -/
def tryStrictAt (cs : List Char) (dlen : Nat) : Option (String × String × Nat) :=
  if (cs.take dlen).length = dlen ∧ (cs.take dlen).all (·.isDigit) ∧ cs.get? dlen = some '-' then
    (findStrictSplit (cs.drop (dlen + 1))).map fun qp =>
      (⟨cs.take dlen⟩, ⟨qp.1⟩, qp.2)
  else none

/-- Attempts the relaxed pattern with a fixed digit-run length `dlen`. -/
def tryRelaxedAt (cs : List Char) (dlen : Nat) : Option (String × String) :=
  if (cs.take dlen).length = dlen ∧ (cs.take dlen).all (·.isDigit) ∧ cs.get? dlen = some '-' then
    (findRelaxedSplit (cs.drop (dlen + 1))).map fun q => (⟨cs.take dlen⟩, ⟨q⟩)
  else none

/-- Match of `^(?P<search_id>\d{14,17})-(?P<query>.*?)-page(?P<page>\d+)\.json$`:
the greedy `\d{14,17}` prefers the longest digit run that lets the whole
pattern match. -/
def matchStrict (name : String) : Option (String × String × Nat) :=
  let cs := name.data
  (tryStrictAt cs 17).orElse fun _ =>
  (tryStrictAt cs 16).orElse fun _ =>
  (tryStrictAt cs 15).orElse fun _ =>
  tryStrictAt cs 14

/-- Match of the relaxed pattern
`^(?P<search_id>\d{14,17})-(?P<query>.*?)-page(?:\.json)?$`. -/
def matchRelaxed (name : String) : Option (String × String) :=
  let cs := name.data
  (tryRelaxedAt cs 17).orElse fun _ =>
  (tryRelaxedAt cs 16).orElse fun _ =>
  (tryRelaxedAt cs 15).orElse fun _ =>
  tryRelaxedAt cs 14

/-- Gregorian leap year. -/
def isLeap (y : Nat) : Bool :=
  (y % 4 = 0 && y % 100 ≠ 0) || y % 400 = 0

/-- Days in a month. -/
def daysInMonth (y m : Nat) : Nat :=
  if m = 2 then (if isLeap y then 29 else 28)
  else if m = 4 ∨ m = 6 ∨ m = 9 ∨ m = 11 then 30
  else 31

/-- Zero-padded decimal rendering. -/
def padNum (w n : Nat) : String :=
  let s := toString n
  ⟨List.replicate (w - s.length) '0'⟩ ++ s

/-- Numeric value of a decimal digit character. -/
def dval (c : Char) : Nat := c.toNat - 48

/-- First alternative whose continuation succeeds — the depth-first
backtracking of a regex over an alternative list in preference order. -/
def firstSome {α β : Type} : List α → (α → Option β) → Option β
  | [], _ => none
  | a :: t, f =>
      match f a with
      | some b => some b
      | none => firstSome t f

/-- `%Y` of CPython `_strptime.TimeRE`: exactly four digits,
`(?P<Y>\d\d\d\d)`. -/
def candY : List Char → Option (Nat × List Char)
  | a :: b :: c :: d :: t =>
      if [a, b, c, d].all (·.isDigit) then some (natOfDigits [a, b, c, d], t)
      else none
  | _ => none

/-- `%m`: `(?P<m>1[0-2]|0[1-9]|[1-9])`, alternatives in regex preference
order (two-digit forms before the one-digit fallback). -/
def candMo : List Char → List (Nat × List Char)
  | [] => []
  | [a] => if '1' ≤ a ∧ a ≤ '9' then [(dval a, [])] else []
  | a :: b :: t =>
      (if a = '1' ∧ '0' ≤ b ∧ b ≤ '2' then [(10 + dval b, t)] else []) ++
      (if a = '0' ∧ '1' ≤ b ∧ b ≤ '9' then [(dval b, t)] else []) ++
      (if '1' ≤ a ∧ a ≤ '9' then [(dval a, b :: t)] else [])

/-- `%d`: `(?P<d>3[01]|[12]\d|0[1-9]|[1-9])`. -/
def candD : List Char → List (Nat × List Char)
  | [] => []
  | [a] => if '1' ≤ a ∧ a ≤ '9' then [(dval a, [])] else []
  | a :: b :: t =>
      (if a = '3' ∧ (b = '0' ∨ b = '1') then [(30 + dval b, t)] else []) ++
      (if (a = '1' ∨ a = '2') ∧ b.isDigit then [(10 * dval a + dval b, t)] else []) ++
      (if a = '0' ∧ '1' ≤ b ∧ b ≤ '9' then [(dval b, t)] else []) ++
      (if '1' ≤ a ∧ a ≤ '9' then [(dval a, b :: t)] else [])

/-- `%H`: `(?P<H>2[0-3]|[0-1]\d|\d)`. -/
def candH : List Char → List (Nat × List Char)
  | [] => []
  | [a] => if a.isDigit then [(dval a, [])] else []
  | a :: b :: t =>
      (if a = '2' ∧ '0' ≤ b ∧ b ≤ '3' then [(20 + dval b, t)] else []) ++
      (if (a = '0' ∨ a = '1') ∧ b.isDigit then [(10 * dval a + dval b, t)] else []) ++
      (if a.isDigit then [(dval a, b :: t)] else [])

/-- `%M`: `(?P<M>[0-5]\d|\d)`. -/
def candMi : List Char → List (Nat × List Char)
  | [] => []
  | [a] => if a.isDigit then [(dval a, [])] else []
  | a :: b :: t =>
      (if '0' ≤ a ∧ a ≤ '5' ∧ b.isDigit then [(10 * dval a + dval b, t)] else []) ++
      (if a.isDigit then [(dval a, b :: t)] else [])

/-- `%S`: `(?P<S>6[0-1]|[0-5]\d|\d)` (leap seconds pass the regex but are
rejected later by the `datetime` constructor). -/
def candS : List Char → List (Nat × List Char)
  | [] => []
  | [a] => if a.isDigit then [(dval a, [])] else []
  | a :: b :: t =>
      (if a = '6' ∧ (b = '0' ∨ b = '1') then [(60 + dval b, t)] else []) ++
      (if '0' ≤ a ∧ a ≤ '5' ∧ b.isDigit then [(10 * dval a + dval b, t)] else []) ++
      (if a.isDigit then [(dval a, b :: t)] else [])

/-- `%f`: `(?P<f>[0-9]{1,6})` — greedy, so lengths six down to one. -/
def candF (cs : List Char) : List (List Char × List Char) :=
  [6, 5, 4, 3, 2, 1].filterMap fun k =>
    if (cs.take k).length = k ∧ (cs.take k).all (·.isDigit) then
      some (cs.take k, cs.drop k)
    else none

/-- The regex `re.match` of the compiled `%Y%m%d%H%M%S%f` pattern: the
fields concatenate with no end anchor, each trying its alternatives in
preference order with depth-first backtracking, and the engine returns the
first complete match (which may leave a remainder).  `%f` is right-padded
with zeros to microseconds (`s += "0" * (6 - len(s))`). -/
def strptimeMatch (cs : List Char) :
    Option ((Nat × Nat × Nat × Nat × Nat × Nat × Nat) × List Char) :=
  match candY cs with
  | none => none
  | some (y, r1) =>
      firstSome (candMo r1) fun mo2 =>
      firstSome (candD mo2.2) fun dy2 =>
      firstSome (candH dy2.2) fun hh2 =>
      firstSome (candMi hh2.2) fun mi2 =>
      firstSome (candS mi2.2) fun ss2 =>
      firstSome (candF ss2.2) fun fr2 =>
      some ((y, mo2.1, dy2.1, hh2.1, mi2.1, ss2.1,
        natOfDigits fr2.1 * 10 ^ (6 - fr2.1.length)), fr2.2)

/-- Model of `datetime.strptime(d, "%Y%m%d%H%M%S%f").replace(tzinfo=utc)`
followed by `.isoformat()`: `None` when strptime raises.  strptime raises
ValueError when the compiled pattern does not match, when the match leaves
unconverted data, or when the `datetime` constructor rejects the matched
fields (year 0, day beyond the month's length, leap second).  `isoformat`
omits the fractional part when the microsecond is zero and renders the UTC
offset as `+00:00`. -/
def parseTimestamp (d : String) : Option String :=
  match strptimeMatch d.data with
  | none => none
  | some ((y, mo, dy, hh, mi, ss, us), rest) =>
      if rest = [] ∧ 1 ≤ y ∧ y ≤ 9999 ∧ 1 ≤ mo ∧ mo ≤ 12 ∧ 1 ≤ dy ∧
          dy ≤ daysInMonth y mo ∧ hh ≤ 23 ∧ mi ≤ 59 ∧ ss ≤ 59 then
        some (padNum 4 y ++ "-" ++ padNum 2 mo ++ "-" ++ padNum 2 dy ++ "T"
          ++ padNum 2 hh ++ ":" ++ padNum 2 mi ++ ":" ++ padNum 2 ss
          ++ (if us = 0 then "" else "." ++ padNum 6 us) ++ "+00:00")
      else none

/-- Python `Path(name).stem`: the name without its final suffix (a leading
dot alone does not start a suffix). -/
def stem (name : String) : String :=
  match lastIdxOfChar name.data '.' with
  | some i => if i > 0 then ⟨name.data.take i⟩ else name
  | none => name

/-- Batch metadata record returned by the filename parser. -/
structure BatchMeta where
  search_id : String
  query_timestamp : Option String
  query : Option String
  page : Option Nat
deriving DecidableEq

/-- Translation of `parse_filename_metadata`
(src/upjobs/processing.py, lines 131-171), taking the file's name.  The
source unconditionally calls `query_ts.isoformat()` in the matched branch,
so when the digit run fails to parse as a timestamp (`query_ts is None`)
the function raises AttributeError; the model returns `.error` there. -/
def parse_filename_metadata (filename : String) : Except String BatchMeta :=
  match matchStrict filename with
  | some (d, q, p) =>
      match parseTimestamp d with
      | some iso =>
          .ok ⟨d ++ "-" ++ q ++ "-page" ++ toString p, some iso, some q, some p⟩
      | none => .error "AttributeError: NoneType object has no attribute isoformat"
  | none =>
      match matchRelaxed filename with
      | some (d, q) =>
          match parseTimestamp d with
          | some iso => .ok ⟨d ++ "-" ++ q ++ "-page", some iso, some q, none⟩
          | none => .error "AttributeError: NoneType object has no attribute isoformat"
      | none => .ok ⟨stem filename, none, none, none⟩

/-- A worksheet: the grid of stored cells, row-major, 1-based in the API.
Cells are the strings the Sheets API reads back (`col_values`,
`row_values`). -/
structure Worksheet where
  cells : List (List String)
deriving DecidableEq

/-- The string a value becomes when written to a cell and read back. -/
def cellOf : Value → String
  | .vstr s => s
  | .vnull => ""
  | .vint n => toString n
  | .vbool b => if b then "TRUE" else "FALSE"
  | v => pyStr v

/-- Model of `ws.row_values(1)`: the first row of the grid. -/
def rowValues1 (ws : Worksheet) : List String :=
  ws.cells.headD []

/-- Model of `ws.col_values(j)` (1-based `j`): one value per stored row,
missing cells read as empty. -/
def colValues (ws : Worksheet) (j : Nat) : List String :=
  ws.cells.map fun r => r.getD (j - 1) ""

/-- Overwrites the leading cells of a row with `vals`, keeping any cells
beyond them (a ranged values write only touches the supplied cells). -/
def writePrefix (row vals : List String) : List String :=
  vals ++ row.drop vals.length

/-- Replaces the row at 0-based index `i` by its prefix-overwrite. -/
def setRows : List (List String) → Nat → List String → List (List String)
  | [], _, _ => []
  | row :: rest, 0, vals => writePrefix row vals :: rest
  | row :: rest, i + 1, vals => row :: setRows rest i vals

/-- Writes `vals` into row `p` (1-based) starting at column A. -/
def setRowPrefix (ws : Worksheet) (p : Nat) (vals : List String) : Worksheet :=
  ⟨setRows ws.cells (p - 1) vals⟩

/-- Translation of `ensure_headers` (src/upjobs/connectors/sheets.py,
lines 38-46): leave the sheet alone when row 1 already equals `headers`,
otherwise write `headers` into row 1 (creating the row when the grid is
empty; `resize` keeps the row count and is a no-op on the grid model). -/
def ensure_headers (ws : Worksheet) (headers : List String) : Worksheet :=
  if rowValues1 ws = headers then ws
  else if ws.cells = [] then ⟨[headers]⟩
  else setRowPrefix ws 1 headers

/-- Last index at which `v` occurs in `col`, skipping empty values — the
net lookup behavior of the `dict` built by `read_index_by_key` (a later
assignment to the same key overwrites the earlier one). -/
def lastKeyIdx : List String → String → Option Nat
  | [], _ => none
  | c :: t, v =>
      match lastKeyIdx t v with
      | some j => some (j + 1)
      | none => if c = v ∧ v ≠ "" then some 0 else none

/-- The index-building loop of `read_index_by_key`: enumerate the column
values from position `start`, assigning `idx[val] = i` for non-empty cells. -/
def buildIdx : List String → Nat → List (String × Nat) → List (String × Nat)
  | [], _, m => m
  | v :: t, start, m =>
      buildIdx t (start + 1) (if v ≠ "" then assocSet m v start else m)

/-- Translation of `read_index_by_key` (src/upjobs/connectors/sheets.py,
lines 49-59): empty when the key column is absent from the header row;
otherwise a map from non-empty key-cell value to 1-based row position
(header is row 1, data rows are enumerated from 2). -/
def read_index_by_key (ws : Worksheet) (key_col_name : String) : List (String × Nat) :=
  let headers := rowValues1 ws
  if key_col_name ∈ headers then
    let key_idx := headers.indexOf key_col_name + 1
    buildIdx ((colValues ws key_idx).drop 1) 2 []
  else []

/-- Translation of `_normalize_row` (src/upjobs/connectors/sheets.py,
lines 62-72): project each header column's value — lists are joined with
a comma-space separator, dicts are JSON-serialized, anything else (missing
keys read as None) passes through. -/
def normalize_row (headers : List String) (row : Rec) : List Value :=
  headers.map fun h =>
    match dget row h with
    | .vlist xs => .vstr (String.intercalate ", " (xs.map pyStr))
    | .vdict fs => .vstr (jsonDumps (.vdict fs))
    | v => v

/-- The row-classification loop of `upsert_rows` (lines 92-100): records
with a falsy key value are skipped; a record whose stringified key is in
the index becomes a ranged update at that row, otherwise an append.  The
loop appends to two accumulators; this structural recursion produces the
identical `updates` and `appends` lists. -/
def collectOps (index : List (String × Nat)) (headers : List String) (key : String) :
    List Rec → List (Nat × List Value) × List (List Value)
  | [] => ([], [])
  | row :: t =>
      let rest := collectOps index headers key t
      if truthy (dget row key) then
        match List.lookup (pyStr (dget row key)) index with
        | some target => ((target, normalize_row headers row) :: rest.1, rest.2)
        | none => (rest.1, normalize_row headers row :: rest.2)
      else rest

/-- Applies the queued ranged updates (each `batch_update` chunk writes the
rows of its chunk in order, so chunking does not affect the grid). -/
def applyUpdates (ws : Worksheet) (updates : List (Nat × List Value)) : Worksheet :=
  updates.foldl (fun w u => setRowPrefix w u.1 (u.2.map cellOf)) ws

/-- Applies the queued appends (`append_rows` adds rows after the last data
row; chunking preserves input order). -/
def appendRows (ws : Worksheet) (appends : List (List Value)) : Worksheet :=
  ⟨ws.cells ++ appends.map (·.map cellOf)⟩

/-- Result of one `upsert_rows` call: the worksheet after the write calls,
plus the queued update and append operations. -/
structure UpsertResult where
  ws : Worksheet
  updates : List (Nat × List Value)
  appends : List (List Value)
deriving DecidableEq

/-- Translation of `upsert_rows` (src/upjobs/connectors/sheets.py,
lines 83-118). -/
def upsert_rows (ws0 : Worksheet) (headers : List String) (rows : List Rec)
    (key : String) : UpsertResult :=
  let ws1 := ensure_headers ws0 headers
  let index := read_index_by_key ws1 key
  let ops := collectOps index headers key rows
  ⟨appendRows (applyUpdates ws1 ops.1) ops.2, ops.1, ops.2⟩

/-- Number of `ws.batch_update` calls issued for `n` queued updates with a
chunk size `bs` (one call per non-empty chunk of `range(0, n, bs)`); the
same count applies to `ws.append_rows` calls for `n` queued appends. -/
def batchCallCount (n bs : Nat) : Nat :=
  if bs = 0 then 0 else (n + bs - 1) / bs

/-- Whether a record's key field holds a non-empty string. -/
def strKey (r : Rec) (key : String) : Bool :=
  match dget r key with
  | .vstr s => s ≠ ""
  | _ => false

/-- The data cells of the 0-based column `kidx` (header row skipped). -/
def keyColIdx (ws : Worksheet) (kidx : Nat) : List String :=
  (ws.cells.map fun row => row.getD kidx "").drop 1

/-- The per-file flattening step of `process_json_file`
(src/upjobs/processing.py, line 185): flatten every dict element of the raw
list; an exception inside the comprehension propagates, hence `mapM`. -/
def flattenAll (raw_jobs : List Value) : Except String (List Rec) :=
  (raw_jobs.filterMap fun r => match r with | .vdict fs => some fs | _ => none).mapM
    flatten_record

/-- The intra-batch `job_id` dedup loop of `process_json_file`
(src/upjobs/processing.py, lines 188-195): a record is kept only when its
`job_id` is truthy and has not been seen before, so the FIRST record with a
given id wins.  `seen` holds already-kept ids; Python's `in` compares
with `==`. -/
def dedupe_first_by_job_id (rows : List Rec) : List Rec :=
  go rows []
where
  /-- Loop with the running `seen` set. -/
  go : List Rec → List Value → List Rec
  | [], _ => []
  | j :: t, seen =>
      let jid := dget j "job_id"
      if ¬ truthy jid ∨ seen.any (pyEq jid) then go t seen
      else j :: go t (jid :: seen)

/-- One iteration of the `_dedupe_jobs` loop: skip rows with a falsy
`job_id`, otherwise assign `by_id[str(jid)] = r`. -/
def dedupeJobsStep (m : List (String × Rec)) (r : Rec) : List (String × Rec) :=
  let jid := dget r "job_id"
  if truthy jid then assocSet m (pyStr jid) r else m

/-- Translation of `_dedupe_jobs` (src/upjobs/cli.py, lines 36-43): build a
dict from stringified `job_id` to record (later assignment overwrites, so
the LAST record wins) and return its values. -/
def dedupe_jobs (rows : List Rec) : List Rec :=
  (rows.foldl dedupeJobsStep []).map (·.2)

/-- Translation of `_dedupe_search_results` (src/upjobs/cli.py,
lines 46-59): keep a row only when its `(search_id, job_id)` pair is truthy
in both parts and unseen, so the FIRST row with a given pair wins. -/
def dedupe_search_results (rows : List Rec) : List Rec :=
  go rows []
where
  /-- Loop with the running `seen` set of stringified key pairs. -/
  go : List Rec → List (String × String) → List Rec
  | [], _ => []
  | r :: t, seen =>
      let sid := dget r "search_id"
      let jid := dget r "job_id"
      if ¬ truthy sid ∨ ¬ truthy jid then go t seen
      else
        let k := (pyStr sid, pyStr jid)
        if seen.contains k then go t seen
        else r :: go t (k :: seen)

/-- Translation of `_coerce_bool` (src/upjobs/cli.py, lines 113-124):
booleans pass through, numbers by non-zeroness, strings stripped and
lower-cased against two fixed sets, anything else None. -/
def coerce_bool (v : Value) : Option Bool :=
  match v with
  | .vbool b => some b
  | .vint n => some (n ≠ 0)
  | .vstr s =>
      let t := pyLower (pyStrip s)
      if t = "true" ∨ t = "yes" ∨ t = "y" ∨ t = "1" then some true
      else if t = "false" ∨ t = "no" ∨ t = "n" ∨ t = "0" then some false
      else none
  | _ => none

/-- Translation of `_coerce_int` (src/upjobs/cli.py, lines 127-132):
`str(value).strip()`, empty means absent, then `int(...)` with failures
swallowed. -/
def coerce_int (v : Value) : Option Int :=
  let s := pyStrip (pyStr v)
  if s = "" then none else pyToInt s

/-- Status normalization of the Applications pull loop
(src/upjobs/cli.py, line 449): `(r.get("status") or "").strip().lower() or
None`.  A truthy non-string raises AttributeError at `.strip()`. -/
def statusNorm (v : Value) : Except String Value :=
  match pyOr v (.vstr "") with
  | .vstr s =>
      let t := pyLower (pyStrip s)
      .ok (if t = "" then .vnull else .vstr t)
  | _ => .error "AttributeError: object has no attribute strip"

/-- The shared tail of an Applications row's contribution: the coerced
fields of src/upjobs/cli.py lines 448-453 in dict-literal order. -/
def pullEntryTail (r : Rec) (status : Value) : Rec :=
  [("final_message", dget r "final_message"), ("status", status),
    ("submitted_at", dget r "submitted_at"),
    ("connects_spent", (coerce_int (dget r "connects_spent")).elim Value.vnull .vint),
    ("boosted", (coerce_bool (dget r "boosted")).elim Value.vnull .vbool),
    ("proposal_url", dget r "proposal_url")]

/-- The Applications row loop of `sheets_pull` (src/upjobs/cli.py,
lines 444-479): split sheet rows into inserts (`apps_new`, no
application_id but a job_id) and updates (`apps_update`, truthy
application_id), with the field coercions of the source. -/
def build_apps (records : List Rec) : Except String (List Rec × List Rec) :=
  go records
where
  /-- Processes the rows in order, concatenating per-row contributions. -/
  go : List Rec → Except String (List Rec × List Rec)
  | [] => .ok ([], [])
  | r :: t => do
      let status ← statusNorm (dget r "status")
      let rest ← go t
      if truthy (dget r "application_id") then
        .ok (rest.1,
          (("application_id", dget r "application_id") :: pullEntryTail r status) :: rest.2)
      else if truthy (dget r "job_id") then
        .ok ((("job_id", dget r "job_id") :: pullEntryTail r status) :: rest.1, rest.2)
      else .ok rest

/-- Python `u[k]`: the stored value, KeyError when absent. -/
def reqField (u : Rec) (k : String) : Except String Value :=
  match List.lookup k u with
  | some v => .ok v
  | none => .error ("KeyError: " ++ k)

/-- The expression `(v or "").lower()`: lower-cases a string (an absent or
None value reads as ""), raises AttributeError on a truthy non-string. -/
def statusLowerE (v : Value) : Except String String :=
  match pyOr v (.vstr "") with
  | .vstr s => .ok (pyLower s)
  | _ => .error "AttributeError: object has no attribute lower"

/-- The status-transition detection of `sheets_pull` (src/upjobs/cli.py,
lines 489-495): for each update-set entry take `str(u["application_id"])`
(KeyError if absent), the new status `(u.get("status") or "").lower()` and
the stored status `(before.get(app_id) or "").lower()`; collect the pair
when the new status is non-empty and differs. -/
def apps_changed (apps_update : List Rec) (before : List (String × String)) :
    Except String (List (String × String)) :=
  match apps_update with
  | [] => .ok []
  | u :: t => do
      let appIdVal ← reqField u "application_id"
      let new_status ← statusLowerE (dget u "status")
      let rest ← apps_changed t before
      if new_status ≠ "" ∧
          new_status ≠ pyLower ((List.lookup (pyStr appIdVal) before).getD "") then
        .ok ((pyStr appIdVal, new_status) :: rest)
      else .ok rest

/-- Translation of `insert_status_history`
(src/upjobs/connectors/supabase.py, lines 213-224): drop pairs with a falsy
id or status, insert the rest as audit rows. -/
def insert_status_history (rows : List (String × String)) : List (String × String) :=
  rows.filter fun p => p.1 ≠ "" ∧ p.2 ≠ ""

/-- The pull-path Applications pipeline: build the new/update split from
the sheet rows, detect status transitions against the previously stored
statuses, and return the audit rows that get inserted
(src/upjobs/cli.py, lines 440-497). -/
def sheets_pull_apps (records : List Rec) (before : List (String × String)) :
    Except String (List Rec × List Rec × List (String × String)) := do
  let (apps_new, apps_update) ← build_apps records
  let changed ← apps_changed apps_update before
  .ok (apps_new, apps_update, insert_status_history changed)

/-- Outcome of one completion call as seen by `_summarize_one`: an
exception (timeout, error response, ...) or a response carrying an optional
message content and an optional usage total. -/
inductive CompletionResult where
  | fail : CompletionResult
  | ok : Option String → Option Nat → CompletionResult

/-- Translation of `_summarize_one` (src/upjobs/ai.py, lines 35-54): on
success the stripped content (None content read as "") and the usage total
(0 when the response reports no usage); any exception yields (None, 0). -/
def summarize_one : CompletionResult → Option String × Nat
  | .fail => (none, 0)
  | .ok content usage => (some (pyStrip (content.getD "")), usage.getD 0)

/-- The per-task body `run` of `summarize_jobs` (src/upjobs/ai.py,
lines 80-86): when the summarize call produced truthy text, set the three
summary fields; otherwise leave the record untouched. -/
def apply_summary (j : Rec) (model : String) (res : CompletionResult) : Rec :=
  match summarize_one res with
  | (some t, used) =>
      if t ≠ "" then
        assocSet (assocSet (assocSet j "description_summary" (.vstr t))
          "description_summary_model" (.vstr model))
          "description_summary_tokens" (.vint used)
      else j
  | (none, _) => j

/-- Translation of `summarize_jobs` (src/upjobs/ai.py, lines 57-92).  The
completion outcomes are an oracle indexed by job position (each spawned
task owns its record exclusively, so the concurrent fan-out is
observationally this per-record map).  Without an API key the whole call
is a no-op.  Selection: stop once `limit` records have been submitted and
skip records that already have a summary or lack a description. -/
def summarize_jobs (jobs : List Rec) (limit : Nat) (model : String)
    (oracle : Nat → CompletionResult) (hasKey : Bool) : List Rec :=
  if hasKey then go jobs 0 0 else jobs
where
  /-- Loop carrying the position `i` and the submission count `c`. -/
  go : List Rec → Nat → Nat → List Rec
  | [], _, _ => []
  | j :: t, i, c =>
      if c ≥ limit then j :: t
      else if truthy (dget j "description_summary") ∨ ¬ truthy (dget j "description") then
        j :: go t (i + 1) c
      else apply_summary j model (oracle i) :: go t (i + 1) (c + 1)

/-- Cell projection as worded by the specification: ordered-sequence values
are joined with a comma-space separator into one string, structured
(map-like) values are JSON-serialized, all other scalars pass through
unchanged, including null.  Kept separate from `normalize_row` so that the
push-path projection claim is a comparison of the two. -/
def projectCellSpec (v : Value) : Value :=
  match v with
  | .vlist xs => .vstr (String.intercalate ", " (xs.map pyStr))
  | .vdict fs => .vstr (jsonDumps (.vdict fs))
  | v => v

/-- Dedup key of a job record as worded by the specification: the
stringified `job_id` when it is non-empty (truthy), else no key. -/
def keyOfJob (r : Rec) : Option String :=
  if truthy (dget r "job_id") then some (pyStr (dget r "job_id")) else none

/-- The last record in input order whose dedup key is `k`. -/
def lastWithKey : List Rec → String → Option Rec
  | [], _ => none
  | r :: t, k =>
      match lastWithKey t k with
      | some x => some x
      | none => if keyOfJob r = some k then some r else none

/-- Application id of an update-set entry, stringified as the source does. -/
def updAppId (u : Rec) : Option String :=
  (List.lookup "application_id" u).map pyStr

/-- New status of an update-set entry as the transition detector reads it:
`(u.get("status") or "").lower()` (update-set entries built by the pull
loop always carry a string-or-None status). -/
def updNewStatus (u : Rec) : String :=
  match pyOr (dget u "status") (.vstr "") with
  | .vstr s => pyLower s
  | _ => ""

/-- Lookup after a dict assignment: the assigned key reads the new value,
every other key is unaffected. -/
theorem lookup_assocSet {α : Type} (m : List (String × α)) (k : String) (v : α)
    (x : String) :
    List.lookup x (assocSet m k v) = if x = k then some v else List.lookup x m := by
  induction m with
  | nil =>
      by_cases hx : x = k
      · subst hx; simp [assocSet, List.lookup_cons]
      · simp [assocSet, List.lookup_cons, beq_false_of_ne hx, hx, List.lookup]
  | cons h t ih =>
      obtain ⟨k', v'⟩ := h
      simp only [assocSet]
      by_cases hk : k' = k
      · rw [if_pos hk, hk]
        by_cases hx : x = k
        · subst hx; simp [List.lookup_cons]
        · simp [List.lookup_cons, beq_false_of_ne hx, hx]
      · rw [if_neg hk]
        by_cases hx : x = k'
        · have hxk : x ≠ k := by rw [hx]; exact hk
          subst hx
          simp [List.lookup_cons, hxk]
        · simp [List.lookup_cons, beq_false_of_ne hx, ih]

/-- Lookup in the index built by the `read_index_by_key` loop: the last
occurrence of a non-empty value wins, offset by the starting position. -/
theorem lookup_buildIdx (col : List String) :
    ∀ (start : Nat) (m : List (String × Nat)) (v : String),
      List.lookup v (buildIdx col start m) =
        match lastKeyIdx col v with
        | some j => some (start + j)
        | none => List.lookup v m := by
  induction col with
  | nil => intro start m v; simp [buildIdx, lastKeyIdx]
  | cons c t ih =>
      intro start m v
      simp only [buildIdx]
      rw [ih]
      cases h : lastKeyIdx t v with
      | some j =>
          simp only [lastKeyIdx, h]
          exact congrArg some (by omega)
      | none =>
          simp only [lastKeyIdx, h]
          by_cases hc : c = v ∧ v ≠ ""
          · obtain ⟨hc1, hc2⟩ := hc
            subst hc1
            simp [hc2, lookup_assocSet]
          · rw [if_neg hc]
            by_cases hce : c = ""
            · simp [hce]
            · rw [if_pos hce, lookup_assocSet]
              by_cases hvc : v = c
              · exact absurd ⟨hvc.symm, fun hv => hce (hvc.symm.trans hv)⟩ hc
              · rw [if_neg hvc]

/-- The update/append classification loop of `upsert_rows` as filters over
the input rows: updates are the keyed rows found in the index (with their
looked-up positions), appends the keyed rows that are not. -/
theorem collectOps_eq (index : List (String × Nat)) (headers : List String)
    (key : String) (rows : List Rec) :
    collectOps index headers key rows =
      ((rows.filter fun r =>
          truthy (dget r key) && (List.lookup (pyStr (dget r key)) index).isSome).map
          fun r => ((List.lookup (pyStr (dget r key)) index).getD 0,
            normalize_row headers r),
       (rows.filter fun r =>
          truthy (dget r key) && (List.lookup (pyStr (dget r key)) index).isNone).map
          (normalize_row headers)) := by
  induction rows with
  | nil => rfl
  | cons r t ih =>
      simp only [collectOps, ih]
      by_cases ht : truthy (dget r key)
      · cases hl : List.lookup (pyStr (dget r key)) index <;>
          simp [ht, hl, List.filter_cons]
      · simp [ht, List.filter_cons]

/-- The source projection `_normalize_row` coincides with the cell
projection as worded by the specification, applied columnwise. -/
theorem normalize_row_eq_spec (headers : List String) (row : Rec) :
    normalize_row headers row = headers.map fun h => projectCellSpec (dget row h) := rfl

/-- C3: `parse_filename_metadata` is claimed never to raise, leaving the
timestamp unset when the leading digit run does not parse; the code instead
calls `.isoformat()` on the failed (`None`) parse and raises
AttributeError.  Here the strptime regex segments the 16-digit run
`2025023010112233` as 2025-02-30 10:11:22.33, the `datetime` constructor
rejects February 30, strptime raises ValueError (swallowed by the bare
except), and the function then raises on `query_ts.isoformat()`. -/
theorem parse_filename_metadata_raises_on_unparsable_timestamp :
    parse_filename_metadata "2025023010112233-data ai engineer-page3.json" =
      .error "AttributeError: NoneType object has no attribute isoformat" := by
  rfl

/-- C4: `flatten_record` is claimed total, but a truthy non-dict `client`
reaches the unguarded `client.get("totalSpent")` and raises
AttributeError (same for non-dict `amount` / `hourlyBudget` values at
their `.get` calls). -/
theorem flatten_record_raises_on_nondict_client :
    flatten_record [("client", .vstr "x")] =
      .error "AttributeError: object has no attribute get" := by
  rfl

/-- C6: the pull-path boolean coercion: native booleans pass through,
numbers map by non-zeroness, strings are stripped and lower-cased against
the two fixed sets, and every other value yields None (absent), never an
exception; in particular "Yes" is true, "0" is false, "maybe" is absent. -/
theorem coerce_bool_characterization :
    (∀ b, coerce_bool (.vbool b) = some b) ∧
    (coerce_bool (.vint 0) = some false) ∧
    (∀ n : Int, n ≠ 0 → coerce_bool (.vint n) = some true) ∧
    (∀ s, coerce_bool (.vstr s) =
      (if pyLower (pyStrip s) ∈ ["true", "yes", "y", "1"] then some true
       else if pyLower (pyStrip s) ∈ ["false", "no", "n", "0"] then some false
       else none)) ∧
    (coerce_bool .vnull = none) ∧
    (∀ xs, coerce_bool (.vlist xs) = none) ∧
    (∀ fs, coerce_bool (.vdict fs) = none) ∧
    (coerce_bool (.vstr "Yes") = some true) ∧
    (coerce_bool (.vstr "0") = some false) ∧
    (coerce_bool (.vstr "maybe") = none) := by
  refine ⟨fun b => rfl, rfl, fun n hn => ?_, fun s => ?_, rfl, fun xs => rfl, fun fs => rfl,
    by decide, by decide, by decide⟩
  · simp [coerce_bool, hn]
  · simp only [coerce_bool, List.mem_cons, List.mem_singleton, List.not_mem_nil, or_false]

/-- C6 witness: the coercion characterization applied at a non-zero
number. -/
theorem coerce_bool_characterization_witness :
    coerce_bool (.vint 7) = some true :=
  coerce_bool_characterization.2.2.1 7 (by decide)

/-- C7 counterexample: this filename matches the strict pattern (17-digit
leading run, query, page), yet the parser returns no metadata record at
all — the preferred strptime match of `20259999999999999` segments as
fields 2025-9-9 9:09:09 plus six `%f` digits, leaving `99` unconverted, so
strptime raises, `query_ts` stays None and `.isoformat()` raises — so the
matched file does not get the composite `search_id` the claim promises for
every matching file. -/
theorem strict_match_without_composite_result :
    matchStrict "20259999999999999-x-page3.json" =
      some ("20259999999999999", "x", 3) ∧
    (parse_filename_metadata "20259999999999999-x-page3.json").isOk = false := by
  exact ⟨by rfl, by rfl⟩

/-- C7 (amended): the concrete example parses exactly as claimed, and for
every filename matched by the strict (or, failing that, the relaxed)
pattern, whenever the parser returns, the returned `search_id` is the
composite `<digits>-<query>-page<page>` (resp. `<digits>-<query>-page`) and
never the bare digit run. -/
theorem search_id_composite_when_parser_returns :
    (parse_filename_metadata "20250810112529289-data ai engineer-page3.json" =
      .ok ⟨"20250810112529289-data ai engineer-page3",
        some "2025-08-10T11:25:29.289000+00:00", some "data ai engineer", some 3⟩) ∧
    (∀ name d q p meta, matchStrict name = some (d, q, p) →
      parse_filename_metadata name = .ok meta →
      meta.search_id = d ++ "-" ++ q ++ "-page" ++ toString p ∧ meta.search_id ≠ d) ∧
    (∀ name d q meta, matchStrict name = none → matchRelaxed name = some (d, q) →
      parse_filename_metadata name = .ok meta →
      meta.search_id = d ++ "-" ++ q ++ "-page" ∧ meta.search_id ≠ d) := by
  refine ⟨by rfl, ?_, ?_⟩
  · intro name d q p meta hm hp
    have hstep : parse_filename_metadata name =
        (match parseTimestamp d with
         | some iso =>
             Except.ok (⟨d ++ "-" ++ q ++ "-page" ++ toString p, some iso, some q,
               some p⟩ : BatchMeta)
         | none =>
             Except.error "AttributeError: NoneType object has no attribute isoformat") := by
      unfold parse_filename_metadata
      rw [hm]
    rw [hstep] at hp
    cases hts : parseTimestamp d with
    | none => rw [hts] at hp; simp at hp
    | some iso =>
        rw [hts] at hp
        have hmeta := Except.ok.inj hp
        subst hmeta
        refine ⟨rfl, ?_⟩
        intro hd
        have hlen := congrArg String.length hd
        have h1 : ("-" : String).length = 1 := rfl
        have h5 : ("-page" : String).length = 5 := rfl
        simp only [String.length_append, h1, h5] at hlen
        omega
  · intro name d q meta hms hm hp
    have hstep : parse_filename_metadata name =
        (match parseTimestamp d with
         | some iso =>
             Except.ok (⟨d ++ "-" ++ q ++ "-page", some iso, some q, none⟩ : BatchMeta)
         | none =>
             Except.error "AttributeError: NoneType object has no attribute isoformat") := by
      unfold parse_filename_metadata
      rw [hms, hm]
    rw [hstep] at hp
    cases hts : parseTimestamp d with
    | none => rw [hts] at hp; simp at hp
    | some iso =>
        rw [hts] at hp
        have hmeta := Except.ok.inj hp
        subst hmeta
        refine ⟨rfl, ?_⟩
        intro hd
        have hlen := congrArg String.length hd
        have h1 : ("-" : String).length = 1 := rfl
        have h5 : ("-page" : String).length = 5 := rfl
        simp only [String.length_append, h1, h5] at hlen
        omega

/-- C7 witness: the composite-search_id statement applied at the claimed
concrete filename. -/
theorem search_id_composite_witness :
    BatchMeta.search_id
        ⟨"20250810112529289-data ai engineer-page3",
          some "2025-08-10T11:25:29.289000+00:00", some "data ai engineer", some 3⟩ =
        "20250810112529289" ++ "-" ++ "data ai engineer" ++ "-page" ++ toString 3 ∧
      BatchMeta.search_id
        ⟨"20250810112529289-data ai engineer-page3",
          some "2025-08-10T11:25:29.289000+00:00", some "data ai engineer", some 3⟩ ≠
        "20250810112529289" :=
  search_id_composite_when_parser_returns.2.1
    "20250810112529289-data ai engineer-page3.json" "20250810112529289"
    "data ai engineer" 3 _ (by rfl) (by rfl)

/-- The updates field of an upsert, unfolded. -/
theorem upsert_rows_updates (ws0 : Worksheet) (headers : List String) (rows : List Rec)
    (key : String) :
    (upsert_rows ws0 headers rows key).updates =
      (collectOps (read_index_by_key (ensure_headers ws0 headers) key) headers key rows).1 :=
  rfl

/-- The appends field of an upsert, unfolded. -/
theorem upsert_rows_appends (ws0 : Worksheet) (headers : List String) (rows : List Rec)
    (key : String) :
    (upsert_rows ws0 headers rows key).appends =
      (collectOps (read_index_by_key (ensure_headers ws0 headers) key) headers key rows).2 :=
  rfl

/-- The worksheet field of an upsert, unfolded. -/
theorem upsert_rows_ws (ws0 : Worksheet) (headers : List String) (rows : List Rec)
    (key : String) :
    (upsert_rows ws0 headers rows key).ws =
      appendRows
        (applyUpdates (ensure_headers ws0 headers)
          (collectOps (read_index_by_key (ensure_headers ws0 headers) key) headers key rows).1)
        (collectOps (read_index_by_key (ensure_headers ws0 headers) key) headers key rows).2 :=
  rfl

/-- C8: in the push path every queued operation's row is the header-order
projection of the record — lists joined with ", ", dicts JSON-serialized,
other scalars (including null) unchanged — and exactly the records with a
truthy (non-missing, non-empty) key value are queued at all, split by
index lookup into updates and appends. -/
theorem upsert_projection_and_skip (ws0 : Worksheet) (headers : List String)
    (rows : List Rec) (key : String) :
    ((upsert_rows ws0 headers rows key).updates =
      (rows.filter fun r => truthy (dget r key) &&
          (List.lookup (pyStr (dget r key))
            (read_index_by_key (ensure_headers ws0 headers) key)).isSome).map
        fun r => ((List.lookup (pyStr (dget r key))
            (read_index_by_key (ensure_headers ws0 headers) key)).getD 0,
          headers.map fun h => projectCellSpec (dget r h))) ∧
    ((upsert_rows ws0 headers rows key).appends =
      (rows.filter fun r => truthy (dget r key) &&
          (List.lookup (pyStr (dget r key))
            (read_index_by_key (ensure_headers ws0 headers) key)).isNone).map
        fun r => headers.map fun h => projectCellSpec (dget r h)) := by
  rw [upsert_rows_updates, upsert_rows_appends, collectOps_eq]
  constructor <;> simp [normalize_row_eq_spec]

/-- C10: the row index maps each non-empty key-column value to the 1-based
position of the last row holding it (header row 1, data from 2; empty
cells skipped; the index is empty when the key column is missing from the
headers, in which case an upsert queues no updates and appends every keyed
record). -/
theorem read_index_lookup_and_append_fallback :
    (∀ (ws : Worksheet) (key v : String),
      List.lookup v (read_index_by_key ws key) =
        if key ∈ rowValues1 ws then
          (lastKeyIdx ((colValues ws ((rowValues1 ws).indexOf key + 1)).drop 1) v).map
            (2 + ·)
        else none) ∧
    (∀ (ws : Worksheet) (headers : List String) (rows : List Rec) (key : String),
      key ∉ rowValues1 (ensure_headers ws headers) →
        (upsert_rows ws headers rows key).updates = [] ∧
        (upsert_rows ws headers rows key).appends =
          (rows.filter fun r => truthy (dget r key)).map (normalize_row headers)) := by
  constructor
  · intro ws key v
    unfold read_index_by_key
    by_cases hk : key ∈ rowValues1 ws
    · rw [if_pos hk, if_pos hk, lookup_buildIdx]
      cases lastKeyIdx ((colValues ws ((rowValues1 ws).indexOf key + 1)).drop 1) v <;>
        simp [List.lookup]
    · rw [if_neg hk, if_neg hk]; rfl
  · intro ws headers rows key hk
    have hidx : read_index_by_key (ensure_headers ws headers) key = [] := by
      unfold read_index_by_key
      rw [if_neg hk]
    constructor
    · rw [upsert_rows_updates, hidx, collectOps_eq]
      simp [List.lookup]
    · rw [upsert_rows_appends, hidx, collectOps_eq]
      simp [List.lookup]

/-- C10 witness: the empty-index append fallback at a sheet whose headers
lack the key column. -/
theorem read_index_append_fallback_witness :
    (upsert_rows ⟨[["a"]]⟩ ["a"] [[("k", .vstr "1")]] "k").updates = [] ∧
    (upsert_rows ⟨[["a"]]⟩ ["a"] [[("k", .vstr "1")]] "k").appends =
      ([[("k", Value.vstr "1")]].filter fun r => truthy (dget r "k")).map
        (normalize_row ["a"]) :=
  read_index_lookup_and_append_fallback.2 ⟨[["a"]]⟩ ["a"] [[("k", .vstr "1")]] "k"
    (by decide)

/-- The digit accumulator of `Nat.toDigitsCore` never shrinks. -/
theorem toDigitsCore_length_mono (b : Nat) :
    ∀ (f n : Nat) (ds : List Char), ds.length ≤ (Nat.toDigitsCore b f n ds).length := by
  intro f
  induction f with
  | zero => intro n ds; exact Nat.le_refl _
  | succ f ih =>
      intro n ds
      rw [show Nat.toDigitsCore b (f + 1) n ds =
        (if n / b = 0 then Nat.digitChar (n % b) :: ds
         else Nat.toDigitsCore b f (n / b) (Nat.digitChar (n % b) :: ds)) from rfl]
      by_cases h : n / b = 0
      · simp [h]
      · rw [if_neg h]
        have := ih (n / b) (Nat.digitChar (n % b) :: ds)
        simp only [List.length_cons] at this
        omega

/-- The decimal digit list of a natural number is non-empty. -/
theorem toDigits_length_pos (n : Nat) : 0 < (Nat.toDigits 10 n).length := by
  rw [show Nat.toDigits 10 n =
    (if n / 10 = 0 then [Nat.digitChar (n % 10)]
     else Nat.toDigitsCore 10 n (n / 10) [Nat.digitChar (n % 10)]) from rfl]
  by_cases h : n / 10 = 0
  · simp [h]
  · rw [if_neg h]
    have := toDigitsCore_length_mono 10 n (n / 10) [Nat.digitChar (n % 10)]
    simp only [List.length_cons, List.length_nil] at this
    omega

/-- The decimal rendering of a natural number is never the empty string. -/
theorem nat_repr_ne_empty (n : Nat) : Nat.repr n ≠ "" := by
  intro h
  have hd : (Nat.repr n).data = ("" : String).data := congrArg String.data h
  rw [show (Nat.repr n).data = Nat.toDigits 10 n from rfl] at hd
  have hp := toDigits_length_pos n
  rw [hd] at hp
  simp at hp

/-- The decimal rendering of an integer is never the empty string. -/
theorem int_toString_ne_empty (n : Int) : toString n ≠ "" := by
  cases n with
  | ofNat m => exact nat_repr_ne_empty m
  | negSucc m =>
      intro h
      have hl := congrArg String.length h
      rw [show toString (Int.negSucc m) = "-" ++ Nat.repr (m + 1) from rfl,
        String.length_append] at hl
      have h1 : ("-" : String).length = 1 := rfl
      rw [h1] at hl
      simp at hl

/-- Python `str` of a truthy value is a non-empty string. -/
theorem pyStr_ne_empty_of_truthy (v : Value) (h : truthy v = true) : pyStr v ≠ "" := by
  cases v with
  | vnull => simp [truthy] at h
  | vbool b =>
      cases b
      · simp [truthy] at h
      · decide
  | vint n => exact int_toString_ne_empty n
  | vstr s => simpa [truthy] using h
  | vlist xs =>
      intro hcon
      have hl := congrArg String.length hcon
      rw [show pyStr (.vlist xs) =
        ("[" ++ String.intercalate ", " (pyReprList xs)) ++ "]" from rfl] at hl
      rw [String.length_append, String.length_append] at hl
      have h1 : ("[" : String).length = 1 := rfl
      have h2 : ("]" : String).length = 1 := rfl
      rw [h1, h2] at hl
      simp at hl
  | vdict fs =>
      intro hcon
      have hl := congrArg String.length hcon
      rw [show pyStr (.vdict fs) =
        ("\x7b" ++ String.intercalate ", " (pyReprFields fs)) ++ "\x7d" from rfl] at hl
      rw [String.length_append, String.length_append] at hl
      have h1 : ("\x7b" : String).length = 1 := rfl
      have h2 : ("\x7d" : String).length = 1 := rfl
      rw [h1, h2] at hl
      simp at hl

/-- Keys of a dict after an assignment: the assigned key or an old key. -/
theorem mem_map_fst_assocSet {α : Type} (m : List (String × α)) (k x : String) (v : α) :
    x ∈ (assocSet m k v).map Prod.fst → x = k ∨ x ∈ m.map Prod.fst := by
  induction m with
  | nil => intro h; simp [assocSet] at h; exact Or.inl h
  | cons p t ih =>
      obtain ⟨k', v'⟩ := p
      by_cases hk : k' = k
      · intro h
        rw [assocSet, if_pos hk] at h
        simp only [List.map_cons, List.mem_cons] at h ⊢
        tauto
      · intro h
        rw [assocSet, if_neg hk] at h
        simp only [List.map_cons, List.mem_cons] at h ⊢
        rcases h with h | h
        · tauto
        · rcases ih h with h2 | h2 <;> tauto

/-- An entry of a dict after an assignment is the new pair or an old entry. -/
theorem mem_assocSet_entries {α : Type} (m : List (String × α)) (k : String) (v : α)
    (p : String × α) : p ∈ assocSet m k v → p = (k, v) ∨ p ∈ m := by
  induction m with
  | nil => intro h; simp [assocSet] at h; exact Or.inl h
  | cons q t ih =>
      obtain ⟨k', v'⟩ := q
      by_cases hk : k' = k
      · intro h
        rw [assocSet, if_pos hk] at h
        simp only [List.mem_cons] at h ⊢
        tauto
      · intro h
        rw [assocSet, if_neg hk] at h
        simp only [List.mem_cons] at h ⊢
        rcases h with h | h
        · tauto
        · rcases ih h with h2 | h2 <;> tauto

/-- Dict assignment preserves distinctness of keys. -/
theorem nodup_fst_assocSet {α : Type} (m : List (String × α)) (k : String) (v : α)
    (h : (m.map Prod.fst).Nodup) : ((assocSet m k v).map Prod.fst).Nodup := by
  induction m with
  | nil => simp [assocSet]
  | cons p t ih =>
      obtain ⟨k', v'⟩ := p
      simp only [List.map_cons, List.nodup_cons] at h
      obtain ⟨hk', hnd⟩ := h
      by_cases hk : k' = k
      · rw [assocSet, if_pos hk]
        simp only [List.map_cons, List.nodup_cons]
        exact ⟨hk ▸ hk', hnd⟩
      · rw [assocSet, if_neg hk]
        simp only [List.map_cons, List.nodup_cons]
        refine ⟨fun hmem => ?_, ih hnd⟩
        rcases mem_map_fst_assocSet t k k' v hmem with h2 | h2
        · exact hk h2
        · exact hk' h2

/-- Lookup misses keys that are not in the dict. -/
theorem lookup_none_of_not_mem_fst {α : Type} (m : List (String × α)) (k : String)
    (h : k ∉ m.map Prod.fst) : List.lookup k m = none := by
  induction m with
  | nil => rfl
  | cons p t ih =>
      obtain ⟨k', v'⟩ := p
      simp only [List.map_cons, List.mem_cons] at h
      push_neg at h
      simp [List.lookup_cons, beq_false_of_ne h.1, ih h.2]

/-- Lookup in the dict built by the `_dedupe_jobs` fold: the last record
with the looked-up key wins. -/
theorem dedupe_fold_lookup (rows : List Rec) :
    ∀ (m : List (String × Rec)) (k : String),
      List.lookup k (rows.foldl dedupeJobsStep m) =
        match lastWithKey rows k with
        | some r => some r
        | none => List.lookup k m := by
  induction rows with
  | nil => intro m k; simp [lastWithKey]
  | cons r t ih =>
      intro m k
      rw [List.foldl_cons, ih]
      cases h : lastWithKey t k with
      | some x => simp [lastWithKey, h]
      | none =>
          simp only [lastWithKey, h]
          unfold dedupeJobsStep
          by_cases ht : truthy (dget r "job_id")
          · rw [if_pos ht, lookup_assocSet]
            have hkey : keyOfJob r = some (pyStr (dget r "job_id")) := by
              simp [keyOfJob, ht]
            by_cases hk : k = pyStr (dget r "job_id")
            · rw [if_pos hk]
              have hs : keyOfJob r = some k := by rw [hkey, hk]
              simp [hs]
            · rw [if_neg hk]
              have hs : ¬ keyOfJob r = some k := by
                rw [hkey]
                intro hcon
                exact hk (Option.some.inj hcon).symm
              simp [hs]
          · rw [if_neg ht]
            have hs : keyOfJob r = none := by simp [keyOfJob, ht]
            simp [hs]

/-- The `_dedupe_jobs` fold keeps keys distinct and every stored record
keyed by its own `job_id`. -/
theorem dedupe_fold_inv (rows : List Rec) :
    ∀ (m : List (String × Rec)),
      (∀ p ∈ m, keyOfJob p.2 = some p.1) → (m.map Prod.fst).Nodup →
      (∀ p ∈ rows.foldl dedupeJobsStep m, keyOfJob p.2 = some p.1) ∧
        ((rows.foldl dedupeJobsStep m).map Prod.fst).Nodup := by
  induction rows with
  | nil => intro m h1 h2; exact ⟨h1, h2⟩
  | cons r t ih =>
      intro m h1 h2
      rw [List.foldl_cons]
      unfold dedupeJobsStep
      by_cases ht : truthy (dget r "job_id")
      · rw [if_pos ht]
        refine ih _ ?_ (nodup_fst_assocSet m _ r h2)
        intro p hp
        rcases mem_assocSet_entries m _ r p hp with h | h
        · subst h; simp [keyOfJob, ht]
        · exact h1 p h
      · rw [if_neg ht]
        exact ih m h1 h2

/-- Filtering the dict's values by a key selects exactly the looked-up
record, when keys are distinct and each record carries its own key. -/
theorem values_filter_eq_lookup (m : List (String × Rec))
    (h1 : ∀ p ∈ m, keyOfJob p.2 = some p.1) (h2 : (m.map Prod.fst).Nodup)
    (k : String) :
    ((m.map Prod.snd).filter fun r => keyOfJob r = some k) =
      (List.lookup k m).toList := by
  induction m with
  | nil => rfl
  | cons p t ih =>
      obtain ⟨k', r'⟩ := p
      have hk' : keyOfJob r' = some k' := h1 (k', r') (by simp)
      simp only [List.map_cons, List.nodup_cons] at h2
      obtain ⟨hnotin, hnd⟩ := h2
      have h1t : ∀ p ∈ t, keyOfJob p.2 = some p.1 := fun p hp => h1 p (by simp [hp])
      by_cases hkk : k' = k
      · subst hkk
        rw [List.map_cons, List.filter_cons]
        have hb : decide (keyOfJob r' = some k') = true := by simp [hk']
        simp only [hb, if_pos]
        rw [List.lookup_cons_self]
        have htnone : List.lookup k' t = none := lookup_none_of_not_mem_fst t k' hnotin
        have : ((t.map Prod.snd).filter fun r => keyOfJob r = some k') = [] := by
          rw [ih h1t hnd, htnone]; rfl
        simp [this, Option.toList]
      · rw [List.map_cons, List.filter_cons]
        have hcond : ¬ (keyOfJob r' = some k) := by
          rw [hk']
          intro hcon
          exact hkk (Option.some.inj hcon)
        have hb : decide (keyOfJob r' = some k) = false := by simp [hcond]
        simp only [hb]
        rw [if_neg (by simp), ih h1t hnd]
        simp [List.lookup_cons, beq_false_of_ne (Ne.symm hkk)]

/-- C2 counterexample: two raw payloads share `job_id` "123" with
descriptions "a" then "b"; normalizing and applying the intra-batch dedup
of `process_json_file` keeps the FIRST payload's description "a", not the
second's "b" as the claim states. -/
theorem intra_batch_dedupe_keeps_first :
    ((flattenAll [.vdict [("uid", .vstr "123"), ("description", .vstr "a")],
        .vdict [("uid", .vstr "123"), ("description", .vstr "b")]]).map
      fun fs => (dedupe_first_by_job_id fs).map fun r => dget r "description") =
        .ok [.vstr "a"] ∧
    Value.vstr "a" ≠ Value.vstr "b" := by
  exact ⟨by rfl, by decide⟩

/-- C2 (amended): `_dedupe_jobs` keeps exactly one entry per distinct key —
the LAST record with that key in input order (first two conjuncts) — but
the intra-batch `job_id` dedup of `process_json_file` and
`_dedupe_search_results` keep the FIRST occurrence; the shared-job_id
scenario therefore yields the second payload's description only through
`_dedupe_jobs`, and the first payload's through the intra-batch dedup. -/
theorem dedupe_last_wins_for_dedupe_jobs_only :
    (∀ (rows : List Rec) (k : String),
      ((dedupe_jobs rows).filter fun r => keyOfJob r = some k) =
        (lastWithKey rows k).toList) ∧
    (∀ (rows : List Rec), ∀ r ∈ dedupe_jobs rows, (keyOfJob r).isSome) ∧
    ((flattenAll [.vdict [("uid", .vstr "123"), ("description", .vstr "a")],
        .vdict [("uid", .vstr "123"), ("description", .vstr "b")]]).map
      fun fs => (dedupe_jobs fs).map fun r => dget r "description") =
        .ok [.vstr "b"] ∧
    ((flattenAll [.vdict [("uid", .vstr "123"), ("description", .vstr "a")],
        .vdict [("uid", .vstr "123"), ("description", .vstr "b")]]).map
      fun fs => (dedupe_first_by_job_id fs).map fun r => dget r "description") =
        .ok [.vstr "a"] ∧
    (dedupe_search_results
        [[("search_id", .vstr "s"), ("job_id", .vstr "1"), ("n", .vint 1)],
         [("search_id", .vstr "s"), ("job_id", .vstr "1"), ("n", .vint 2)]] =
      [[("search_id", .vstr "s"), ("job_id", .vstr "1"), ("n", .vint 1)]]) := by
  refine ⟨?_, ?_, by rfl, by rfl, by rfl⟩
  · intro rows k
    unfold dedupe_jobs
    have hinv := dedupe_fold_inv rows [] (by simp) (by simp)
    rw [values_filter_eq_lookup _ hinv.1 hinv.2 k, dedupe_fold_lookup]
    cases h : lastWithKey rows k <;> simp [List.lookup, Option.toList]
  · intro rows r hr
    unfold dedupe_jobs at hr
    have hinv := dedupe_fold_inv rows [] (by simp) (by simp)
    rcases List.mem_map.mp hr with ⟨p, hp, hpr⟩
    have := hinv.1 p hp
    rw [hpr] at this
    simp [this]

/-- C2 witness: the last-wins characterization of `_dedupe_jobs` applied to
a two-record list sharing one key. -/
theorem dedupe_last_wins_witness :
    ((dedupe_jobs [[("job_id", .vstr "1"), ("n", .vint 1)],
        [("job_id", .vstr "1"), ("n", .vint 2)]]).filter fun r =>
          keyOfJob r = some "1") =
      (lastWithKey [[("job_id", .vstr "1"), ("n", .vint 1)],
        [("job_id", .vstr "1"), ("n", .vint 2)]] "1").toList ∧
    (keyOfJob [("job_id", Value.vstr "1"), ("n", Value.vint 2)]).isSome :=
  ⟨dedupe_last_wins_for_dedupe_jobs_only.1
      [[("job_id", .vstr "1"), ("n", .vint 1)], [("job_id", .vstr "1"), ("n", .vint 2)]]
      "1",
    dedupe_last_wins_for_dedupe_jobs_only.2.1
      [[("job_id", .vstr "1"), ("n", .vint 1)], [("job_id", .vstr "1"), ("n", .vint 2)]]
      [("job_id", .vstr "1"), ("n", .vint 2)] (by decide)⟩

/-- A successful status normalization yields None or a string. -/
theorem statusNorm_shape (v st : Value) (h : statusNorm v = .ok st) :
    st = .vnull ∨ ∃ s, st = .vstr s := by
  unfold statusNorm at h
  cases hv : pyOr v (.vstr "") with
  | vstr s =>
      rw [hv] at h
      have := Except.ok.inj h
      by_cases he : pyLower (pyStrip s) = ""
      · left; rw [← this]; simp [he]
      · right
        refine ⟨pyLower (pyStrip s), ?_⟩
        rw [← this]; simp [he]
  | vnull => rw [hv] at h; exact absurd h (by simp)
  | vbool b => rw [hv] at h; exact absurd h (by simp)
  | vint n => rw [hv] at h; exact absurd h (by simp)
  | vlist xs => rw [hv] at h; exact absurd h (by simp)
  | vdict fs => rw [hv] at h; exact absurd h (by simp)

/-- Bind on a successful Except computation. -/
theorem except_bind_ok {ε α β : Type} (a : α) (f : α → Except ε β) :
    (Except.ok a >>= f : Except ε β) = f a := rfl

/-- Bind on a failed Except computation. -/
theorem except_bind_error {ε α β : Type} (e : ε) (f : α → Except ε β) :
    ((Except.error e : Except ε α) >>= f : Except ε β) = .error e := rfl

/-- One step of the Applications row loop in desugared monadic form. -/
theorem build_apps_go_cons (r : Rec) (t : List Rec) :
    build_apps.go (r :: t) =
      (statusNorm (dget r "status") >>= fun status =>
        build_apps.go t >>= fun rest =>
          if truthy (dget r "application_id") then
            Except.ok (rest.1,
              (("application_id", dget r "application_id") :: pullEntryTail r status)
                :: rest.2)
          else if truthy (dget r "job_id") then
            Except.ok ((("job_id", dget r "job_id") :: pullEntryTail r status)
              :: rest.1, rest.2)
          else Except.ok rest) := rfl

/-- Every update-set entry built by the Applications pull loop carries a
truthy `application_id` and a None-or-string `status`. -/
theorem build_apps_update_inv (records : List Rec) :
    ∀ (res : List Rec × List Rec), build_apps records = .ok res →
      ∀ u ∈ res.2,
        (∃ a, List.lookup "application_id" u = some a ∧ truthy a) ∧
        (List.lookup "status" u = some .vnull ∨
          ∃ s, List.lookup "status" u = some (.vstr s)) := by
  induction records with
  | nil =>
      intro res h u hu
      have : res = ([], []) := (Except.ok.inj h).symm
      subst this
      simp at hu
  | cons r t ih =>
      intro res h u hu
      rw [show build_apps (r :: t) = build_apps.go (r :: t) from rfl,
        build_apps_go_cons] at h
      cases hs : statusNorm (dget r "status") with
      | error e => rw [hs, except_bind_error] at h; exact absurd h (by simp)
      | ok status =>
          rw [hs, except_bind_ok] at h
          cases hg : build_apps.go t with
          | error e => rw [hg, except_bind_error] at h; exact absurd h (by simp)
          | ok rest =>
              rw [hg, except_bind_ok] at h
              have hrest := ih rest hg
              by_cases happ : truthy (dget r "application_id")
              · rw [if_pos happ] at h
                have hres := (Except.ok.inj h).symm
                subst hres
                simp only [List.mem_cons] at hu
                rcases hu with hu | hu
                · subst hu
                  constructor
                  · exact ⟨dget r "application_id", by simp [List.lookup_cons], happ⟩
                  · rcases statusNorm_shape _ _ hs with h0 | ⟨s, h0⟩
                    · left; subst h0; simp [pullEntryTail, List.lookup_cons]
                    · right
                      refine ⟨s, ?_⟩
                      subst h0; simp [pullEntryTail, List.lookup_cons]
                · exact hrest u hu
              · rw [if_neg happ] at h
                by_cases hjob : truthy (dget r "job_id")
                · rw [if_pos hjob] at h
                  have hres := (Except.ok.inj h).symm
                  subst hres
                  exact hrest u hu
                · rw [if_neg hjob] at h
                  have hres := (Except.ok.inj h).symm
                  subst hres
                  exact hrest u hu

/-- For an entry whose status field is None or a string, the transition
detector's status read succeeds and computes `updNewStatus`. -/
theorem statusLowerE_of_shape (u : Rec)
    (h : List.lookup "status" u = some .vnull ∨
      ∃ s, List.lookup "status" u = some (.vstr s)) :
    statusLowerE (dget u "status") = .ok (updNewStatus u) := by
  rcases h with h0 | ⟨s, h0⟩
  · have hd : dget u "status" = .vnull := by unfold dget; rw [h0]; rfl
    unfold statusLowerE updNewStatus
    rw [hd]
    rfl
  · have hd : dget u "status" = .vstr s := by unfold dget; rw [h0]; rfl
    unfold statusLowerE updNewStatus
    rw [hd]
    by_cases hs : truthy (.vstr s)
    · simp [pyOr, hs]
    · simp [pyOr, hs]

/-- One step of the transition-detection loop in desugared monadic form. -/
theorem apps_changed_cons (u : Rec) (t : List Rec) (before : List (String × String)) :
    apps_changed (u :: t) before =
      (reqField u "application_id" >>= fun appIdVal =>
        statusLowerE (dget u "status") >>= fun new_status =>
          apps_changed t before >>= fun rest =>
            if new_status ≠ "" ∧
                new_status ≠ pyLower ((List.lookup (pyStr appIdVal) before).getD "") then
              Except.ok ((pyStr appIdVal, new_status) :: rest)
            else Except.ok rest) := rfl

/-- On builder-produced entries the transition detector succeeds and equals
the filter the claim describes: one pair per entry whose lower-cased new
status is non-empty and differs from the lower-cased stored status. -/
theorem apps_changed_eq (before : List (String × String)) :
    ∀ (upd : List Rec),
      (∀ u ∈ upd,
        (∃ a, List.lookup "application_id" u = some a ∧ truthy a) ∧
        (List.lookup "status" u = some .vnull ∨
          ∃ s, List.lookup "status" u = some (.vstr s))) →
      apps_changed upd before = .ok (upd.filterMap fun u =>
        match updAppId u with
        | some aid =>
            if updNewStatus u ≠ "" ∧
                updNewStatus u ≠ pyLower ((List.lookup aid before).getD "")
            then some (aid, updNewStatus u) else none
        | none => none) := by
  intro upd
  induction upd with
  | nil => intro _; rfl
  | cons u t ih =>
      intro hinv
      obtain ⟨⟨a, ha, hta⟩, hstat⟩ := hinv u (List.mem_cons_self u t)
      have hrest := ih fun v hv => hinv v (List.mem_cons_of_mem u hv)
      have hreq : reqField u "application_id" = .ok a := by unfold reqField; rw [ha]
      have hupd : updAppId u = some (pyStr a) := by unfold updAppId; rw [ha]; rfl
      rw [apps_changed_cons, hreq, except_bind_ok, statusLowerE_of_shape u hstat,
        except_bind_ok, hrest, except_bind_ok, List.filterMap_cons]
      simp only [hupd]
      by_cases hcond : updNewStatus u ≠ "" ∧
          updNewStatus u ≠ pyLower ((List.lookup (pyStr a) before).getD "")
      · rw [if_pos hcond, if_pos hcond]
      · rw [if_neg hcond, if_neg hcond]

/-- Every emitted transition pair has a non-empty id and status, so the
insert-side filter keeps all of them. -/
theorem changed_entries_nonempty (before : List (String × String)) (upd : List Rec)
    (hinv : ∀ u ∈ upd,
      (∃ a, List.lookup "application_id" u = some a ∧ truthy a) ∧
      (List.lookup "status" u = some .vnull ∨
        ∃ s, List.lookup "status" u = some (.vstr s))) :
    ∀ p ∈ (upd.filterMap fun u =>
        match updAppId u with
        | some aid =>
            if updNewStatus u ≠ "" ∧
                updNewStatus u ≠ pyLower ((List.lookup aid before).getD "")
            then some (aid, updNewStatus u) else none
        | none => none), p.1 ≠ "" ∧ p.2 ≠ "" := by
  intro p hp
  rcases List.mem_filterMap.mp hp with ⟨u, hu, hf⟩
  obtain ⟨⟨a, ha, hta⟩, _⟩ := hinv u hu
  have hupd : updAppId u = some (pyStr a) := by unfold updAppId; rw [ha]; rfl
  simp only [hupd] at hf
  by_cases hcond : updNewStatus u ≠ "" ∧
      updNewStatus u ≠ pyLower ((List.lookup (pyStr a) before).getD "")
  · rw [if_pos hcond] at hf
    have hpe := Option.some.inj hf
    subst hpe
    exact ⟨pyStr_ne_empty_of_truthy a hta, hcond.1⟩
  · rw [if_neg hcond] at hf
    exact absurd hf (by simp)

/-- A transition pair's id always appears among the update set's ids. -/
theorem hist_fst_mem_ids (before : List (String × String)) (upd : List Rec) (p : String × String)
    (hp : p ∈ (upd.filterMap fun u =>
        match updAppId u with
        | some aid =>
            if updNewStatus u ≠ "" ∧
                updNewStatus u ≠ pyLower ((List.lookup aid before).getD "")
            then some (aid, updNewStatus u) else none
        | none => none)) :
    p.1 ∈ upd.filterMap updAppId := by
  rcases List.mem_filterMap.mp hp with ⟨u, hu, hf⟩
  cases hua : updAppId u with
  | none =>
      simp only [hua] at hf
      exact Option.noConfusion hf
  | some a =>
      simp only [hua] at hf
      by_cases hcond : updNewStatus u ≠ "" ∧
          updNewStatus u ≠ pyLower ((List.lookup a before).getD "")
      · rw [if_pos hcond] at hf
        have := Option.some.inj hf
        subst this
        exact List.mem_filterMap.mpr ⟨u, hu, hua⟩
      · rw [if_neg hcond] at hf
        exact absurd hf (by simp)

/-- With distinct update-set application ids, at most one transition pair
is emitted per id. -/
theorem hist_count_le_one (before : List (String × String)) :
    ∀ (upd : List Rec), (upd.filterMap updAppId).Nodup →
      ∀ aid, (((upd.filterMap fun u =>
        match updAppId u with
        | some aid2 =>
            if updNewStatus u ≠ "" ∧
                updNewStatus u ≠ pyLower ((List.lookup aid2 before).getD "")
            then some (aid2, updNewStatus u) else none
        | none => none).filter fun p => p.1 = aid).length ≤ 1) := by
  intro upd
  induction upd with
  | nil => intro _ aid; simp
  | cons u t ih =>
      intro hnd aid
      rw [List.filterMap_cons]
      cases hua : updAppId u with
      | none =>
          simp only [hua]
          rw [List.filterMap_cons, hua] at hnd
          exact ih hnd aid
      | some a =>
          simp only [hua]
          rw [List.filterMap_cons, hua] at hnd
          simp only [List.nodup_cons] at hnd
          obtain ⟨hnotin, hndt⟩ := hnd
          by_cases hcond : updNewStatus u ≠ "" ∧
              updNewStatus u ≠ pyLower ((List.lookup a before).getD "")
          · rw [if_pos hcond, List.filter_cons]
            by_cases haid : a = aid
            · have hb : decide ((a, updNewStatus u).1 = aid) = true := by simp [haid]
              simp only [hb, if_pos]
              have hzero : ((t.filterMap fun u =>
                  match updAppId u with
                  | some aid2 =>
                      if updNewStatus u ≠ "" ∧
                          updNewStatus u ≠ pyLower ((List.lookup aid2 before).getD "")
                      then some (aid2, updNewStatus u) else none
                  | none => none).filter fun p => p.1 = aid) = [] := by
                rw [List.filter_eq_nil_iff]
                intro p hp
                have hmem := hist_fst_mem_ids before t p hp
                simp only [decide_eq_true_eq]
                intro hpe
                rw [hpe, ← haid] at hmem
                exact hnotin hmem
              rw [hzero]
              simp
            · have hb : decide ((a, updNewStatus u).1 = aid) = false := by simp [haid]
              simp only [hb]
              rw [if_neg (by simp [haid])]
              exact ih hndt aid
          · rw [if_neg hcond]
            exact ih hndt aid

/-- The Applications pull pipeline in desugared monadic form. -/
theorem sheets_pull_apps_eq (records : List Rec) (before : List (String × String)) :
    sheets_pull_apps records before =
      (build_apps records >>= fun p =>
        apps_changed p.2 before >>= fun changed =>
          Except.ok (p.1, p.2, insert_status_history changed)) := rfl

/-- C5: in the pull path, a status-history entry is emitted for an
update-set entry iff its new status, lower-cased, is non-empty and differs
from the previously stored status lower-cased; the entry carries that
lower-cased status, and (for distinct application ids) at most one entry is
emitted per application. -/
theorem status_history_emission :
    ∀ (records : List Rec) (before : List (String × String))
      (apps_new apps_update : List Rec) (hist : List (String × String)),
      sheets_pull_apps records before = .ok (apps_new, apps_update, hist) →
      (hist = apps_update.filterMap fun u =>
        match updAppId u with
        | some aid =>
            if updNewStatus u ≠ "" ∧
                updNewStatus u ≠ pyLower ((List.lookup aid before).getD "")
            then some (aid, updNewStatus u) else none
        | none => none) ∧
      (∀ aid s, (aid, s) ∈ hist ↔
        ∃ u ∈ apps_update, updAppId u = some aid ∧ updNewStatus u = s ∧ s ≠ "" ∧
          s ≠ pyLower ((List.lookup aid before).getD "")) ∧
      ((apps_update.filterMap updAppId).Nodup →
        ∀ aid, ((hist.filter fun p => p.1 = aid).length ≤ 1)) := by
  intro records before anew aupd hist h
  rw [sheets_pull_apps_eq] at h
  cases hb : build_apps records with
  | error e => rw [hb, except_bind_error] at h; exact absurd h (by simp)
  | ok p =>
      rw [hb, except_bind_ok] at h
      have hinv := build_apps_update_inv records p hb
      rw [apps_changed_eq before p.2 hinv, except_bind_ok] at h
      have htrip := Except.ok.inj h
      have h1 : p.1 = anew := congrArg Prod.fst htrip
      have h2 : p.2 = aupd := congrArg Prod.fst (congrArg Prod.snd htrip)
      have h3 : insert_status_history (p.2.filterMap fun u =>
          match updAppId u with
          | some aid =>
              if updNewStatus u ≠ "" ∧
                  updNewStatus u ≠ pyLower ((List.lookup aid before).getD "")
              then some (aid, updNewStatus u) else none
          | none => none) = hist :=
        congrArg Prod.snd (congrArg Prod.snd htrip)
      have hfull : insert_status_history (p.2.filterMap fun u =>
          match updAppId u with
          | some aid =>
              if updNewStatus u ≠ "" ∧
                  updNewStatus u ≠ pyLower ((List.lookup aid before).getD "")
              then some (aid, updNewStatus u) else none
          | none => none) =
          (p.2.filterMap fun u =>
          match updAppId u with
          | some aid =>
              if updNewStatus u ≠ "" ∧
                  updNewStatus u ≠ pyLower ((List.lookup aid before).getD "")
              then some (aid, updNewStatus u) else none
          | none => none) := by
        unfold insert_status_history
        rw [List.filter_eq_self]
        intro q hq
        have := changed_entries_nonempty before p.2 hinv q hq
        simp [this.1, this.2]
      have hhist : hist = (aupd.filterMap fun u =>
          match updAppId u with
          | some aid =>
              if updNewStatus u ≠ "" ∧
                  updNewStatus u ≠ pyLower ((List.lookup aid before).getD "")
              then some (aid, updNewStatus u) else none
          | none => none) := by
        rw [← h3, hfull, h2]
      refine ⟨hhist, ?_, ?_⟩
      · intro aid s
        rw [hhist]
        constructor
        · intro hmem
          rcases List.mem_filterMap.mp hmem with ⟨u, hu, hf⟩
          have hinv2 := hinv
          rw [h2] at hinv2
          obtain ⟨⟨a, ha, hta⟩, _⟩ := hinv2 u hu
          have hupd : updAppId u = some (pyStr a) := by unfold updAppId; rw [ha]; rfl
          simp only [hupd] at hf
          by_cases hcond : updNewStatus u ≠ "" ∧
              updNewStatus u ≠ pyLower ((List.lookup (pyStr a) before).getD "")
          · rw [if_pos hcond] at hf
            have hpe := Option.some.inj hf
            have haid : pyStr a = aid := congrArg Prod.fst hpe
            have hst : updNewStatus u = s := congrArg Prod.snd hpe
            refine ⟨u, hu, by rw [hupd, haid], hst, by rw [← hst]; exact hcond.1, ?_⟩
            rw [← hst, ← haid]
            exact hcond.2
          · rw [if_neg hcond] at hf
            exact Option.noConfusion hf
        · rintro ⟨u, hu, hua, hs, hne, hdiff⟩
          refine List.mem_filterMap.mpr ⟨u, hu, ?_⟩
          simp only [hua]
          rw [if_pos ⟨by rw [hs]; exact hne, by rw [hs]; exact hdiff⟩, hs]
      · intro hnd aid
        rw [hhist]
        exact hist_count_le_one before aupd hnd aid

/-- C5 witness: the emission characterization at a two-row sheet — previous
status "draft" with pulled "Submitted" emits one lower-cased entry, pulled
"draft" (unchanged) emits none. -/
theorem status_history_emission_witness :
    [("a1", "submitted")] =
      ([[("application_id", Value.vstr "a1"), ("final_message", Value.vnull),
          ("status", Value.vstr "submitted"), ("submitted_at", Value.vnull),
          ("connects_spent", Value.vnull), ("boosted", Value.vnull),
          ("proposal_url", Value.vnull)],
        [("application_id", Value.vstr "a2"), ("final_message", Value.vnull),
          ("status", Value.vstr "draft"), ("submitted_at", Value.vnull),
          ("connects_spent", Value.vnull), ("boosted", Value.vnull),
          ("proposal_url", Value.vnull)]].filterMap fun u =>
        match updAppId u with
        | some aid =>
            if updNewStatus u ≠ "" ∧
                updNewStatus u ≠
                  pyLower ((List.lookup aid [("a1", "draft"), ("a2", "draft")]).getD "")
            then some (aid, updNewStatus u) else none
        | none => none) :=
  (status_history_emission
    [[("application_id", .vstr "a1"), ("status", .vstr "Submitted")],
     [("application_id", .vstr "a2"), ("status", .vstr "draft")]]
    [("a1", "draft"), ("a2", "draft")]
    []
    [[("application_id", .vstr "a1"), ("final_message", .vnull),
      ("status", .vstr "submitted"), ("submitted_at", .vnull),
      ("connects_spent", .vnull), ("boosted", .vnull), ("proposal_url", .vnull)],
     [("application_id", .vstr "a2"), ("final_message", .vnull),
      ("status", .vstr "draft"), ("submitted_at", .vnull),
      ("connects_spent", .vnull), ("boosted", .vnull), ("proposal_url", .vnull)]]
    [("a1", "submitted")] (by rfl)).1

/-- Reading a dict after an assignment. -/
theorem dget_assocSet (m : Rec) (k2 : String) (v : Value) (k : String) :
    dget (assocSet m k2 v) k = if k = k2 then v else dget m k := by
  unfold dget
  rw [lookup_assocSet]
  by_cases h : k = k2 <;> simp [h]

/-- The fan-out loop is position-preserving in length. -/
theorem summarize_go_length (limit : Nat) (model : String)
    (oracle : Nat → CompletionResult) :
    ∀ (jobs : List Rec) (i0 c : Nat),
      (summarize_jobs.go limit model oracle jobs i0 c).length = jobs.length := by
  intro jobs
  induction jobs with
  | nil => intro i0 c; rfl
  | cons j t ih =>
      intro i0 c
      unfold summarize_jobs.go
      by_cases hc : c ≥ limit
      · rw [if_pos hc]
      · rw [if_neg hc]
        by_cases hskip : truthy (dget j "description_summary") ∨
            ¬ truthy (dget j "description")
        · rw [if_pos hskip]
          simp [ih]
        · rw [if_neg hskip]
          simp [ih]

/-- Changing the completion outcome of one position leaves every other
position's record unchanged (a per-item failure does not touch siblings). -/
theorem summarize_go_congr (limit : Nat) (model : String)
    (oracle oracle' : Nat → CompletionResult) (i : Nat)
    (hor : ∀ n, n ≠ i → oracle n = oracle' n) :
    ∀ (jobs : List Rec) (i0 c k : Nat), i0 + k ≠ i →
      (summarize_jobs.go limit model oracle jobs i0 c).get? k =
        (summarize_jobs.go limit model oracle' jobs i0 c).get? k := by
  intro jobs
  induction jobs with
  | nil => intro i0 c k hk; rfl
  | cons j t ih =>
      intro i0 c k hk
      unfold summarize_jobs.go
      by_cases hc : c ≥ limit
      · rw [if_pos hc, if_pos hc]
      · rw [if_neg hc, if_neg hc]
        by_cases hskip : truthy (dget j "description_summary") ∨
            ¬ truthy (dget j "description")
        · rw [if_pos hskip, if_pos hskip]
          cases k with
          | zero => rfl
          | succ k0 =>
              simp only [List.get?_cons_succ]
              exact ih (i0 + 1) c k0 (by omega)
        · rw [if_neg hskip, if_neg hskip]
          cases k with
          | zero =>
              have : oracle i0 = oracle' i0 := hor i0 (by omega)
              rw [this]
              rfl
          | succ k0 =>
              simp only [List.get?_cons_succ]
              exact ih (i0 + 1) (c + 1) k0 (by omega)

/-- C9: per-item completion failures (exception, error response, or
empty/whitespace-only result) leave the record completely unmodified and do
not disturb sibling records, and the whole call is a no-op without an API
key; a successful completion adds exactly the three summary fields (token
count zero when the upstream call reports no usage), leaving every other
field unchanged. -/
theorem summarize_jobs_failure_and_success :
    (∀ (j : Rec) (model : String), apply_summary j model .fail = j) ∧
    (∀ (j : Rec) (model : String) (r : CompletionResult),
      (summarize_one r).1 = none ∨ (summarize_one r).1 = some "" →
        apply_summary j model r = j) ∧
    (∀ (j : Rec) (model s : String) (u : Option Nat), pyStrip s ≠ "" →
      apply_summary j model (.ok (some s) u) =
        assocSet (assocSet (assocSet j "description_summary" (.vstr (pyStrip s)))
          "description_summary_model" (.vstr model))
          "description_summary_tokens" (.vint (u.getD 0))) ∧
    (∀ (j : Rec) (model s : String) (u : Option Nat), pyStrip s ≠ "" →
      dget (apply_summary j model (.ok (some s) u)) "description_summary" =
          .vstr (pyStrip s) ∧
      dget (apply_summary j model (.ok (some s) u)) "description_summary_model" =
          .vstr model ∧
      dget (apply_summary j model (.ok (some s) u)) "description_summary_tokens" =
          .vint (u.getD 0)) ∧
    (∀ (j : Rec) (model : String) (r : CompletionResult) (k : String),
      k ≠ "description_summary" → k ≠ "description_summary_model" →
      k ≠ "description_summary_tokens" →
        dget (apply_summary j model r) k = dget j k) ∧
    (∀ (jobs : List Rec) (limit : Nat) (model : String)
        (oracle oracle' : Nat → CompletionResult) (i : Nat),
      (∀ n, n ≠ i → oracle n = oracle' n) →
      ∀ k, k ≠ i →
        (summarize_jobs jobs limit model oracle true).get? k =
          (summarize_jobs jobs limit model oracle' true).get? k) ∧
    (∀ (jobs : List Rec) (limit : Nat) (model : String)
        (oracle : Nat → CompletionResult),
      (summarize_jobs jobs limit model oracle true).length = jobs.length) ∧
    (∀ (jobs : List Rec) (limit : Nat) (model : String)
        (oracle : Nat → CompletionResult),
      summarize_jobs jobs limit model oracle false = jobs) := by
  refine ⟨fun j model => rfl, ?_, ?_, ?_, ?_, ?_, ?_, fun jobs limit model oracle => rfl⟩
  · intro j model r h
    cases r with
    | fail => rfl
    | ok c u =>
        rcases h with h | h
        · exact absurd h (by simp [summarize_one])
        · have ht : pyStrip (c.getD "") = "" := by simpa [summarize_one] using h
          unfold apply_summary
          simp [summarize_one, ht]
  · intro j model s u h
    unfold apply_summary
    simp [summarize_one, h]
  · intro j model s u h
    unfold apply_summary
    simp only [summarize_one, Option.getD_some, ne_eq, h, not_false_eq_true, if_pos]
    refine ⟨?_, ?_, ?_⟩
    · rw [dget_assocSet, if_neg (by decide), dget_assocSet, if_neg (by decide),
        dget_assocSet, if_pos rfl]
    · rw [dget_assocSet, if_neg (by decide), dget_assocSet, if_pos rfl]
    · rw [dget_assocSet, if_pos rfl]
  · intro j model r k h1 h2 h3
    cases r with
    | fail => rfl
    | ok c u =>
        unfold apply_summary
        simp only [summarize_one]
        by_cases ht : pyStrip (c.getD "") = ""
        · simp [ht]
        · simp only [ne_eq, ht, not_false_eq_true, if_pos]
          rw [dget_assocSet, if_neg h3, dget_assocSet, if_neg h2,
            dget_assocSet, if_neg h1]
  · intro jobs limit model oracle oracle' i hor k hk
    exact summarize_go_congr limit model oracle oracle' i hor jobs 0 0 k (by omega)
  · intro jobs limit model oracle
    exact summarize_go_length limit model oracle jobs 0 0

/-- C9 witness: a failing completion leaves the concrete record unmodified,
and a successful one adds exactly the three summary fields. -/
theorem summarize_jobs_failure_witness :
    apply_summary [("description", Value.vstr "d")] "m" (.ok (some "  ") none) =
      [("description", Value.vstr "d")] ∧
    apply_summary [("description", Value.vstr "d")] "m" (.ok (some " hi ") none) =
      assocSet (assocSet (assocSet [("description", Value.vstr "d")]
        "description_summary" (.vstr (pyStrip " hi ")))
        "description_summary_model" (.vstr "m"))
        "description_summary_tokens" (.vint ((none : Option Nat).getD 0)) :=
  ⟨summarize_jobs_failure_and_success.2.1 [("description", .vstr "d")] "m"
      (.ok (some "  ") none) (Or.inr (by rfl)),
    summarize_jobs_failure_and_success.2.2.1 [("description", .vstr "d")] "m" " hi "
      none (by decide)⟩

/-- Reading the grid after a ranged row write. -/
theorem setRows_get? (cells : List (List String)) :
    ∀ (i : Nat) (vals : List String) (j : Nat),
      (setRows cells i vals).get? j =
        if j = i then (cells.get? j).map (fun row => writePrefix row vals)
        else cells.get? j := by
  induction cells with
  | nil => intro i vals j; simp [setRows]
  | cons row rest ih =>
      intro i vals j
      cases i with
      | zero =>
          cases j with
          | zero => simp [setRows]
          | succ j0 => simp [setRows]
      | succ i0 =>
          cases j with
          | zero => simp [setRows]
          | succ j0 =>
              simp only [setRows, List.get?_cons_succ, ih i0 vals j0]
              by_cases hj : j0 = i0 <;> simp [hj]

/-- A ranged row write preserves the number of rows. -/
theorem setRows_length (cells : List (List String)) :
    ∀ (i : Nat) (vals : List String), (setRows cells i vals).length = cells.length := by
  induction cells with
  | nil => intro i vals; rfl
  | cons row rest ih =>
      intro i vals
      cases i with
      | zero => simp [setRows]
      | succ i0 => simp [setRows, ih]

/-- Re-writing the same prefix is idempotent. -/
theorem writePrefix_idem (row vals : List String) :
    writePrefix (writePrefix row vals) vals = writePrefix row vals := by
  unfold writePrefix
  rw [List.drop_left]

/-- Writing a row's own full contents back changes nothing. -/
theorem writePrefix_self (vals : List String) : writePrefix vals vals = vals := by
  unfold writePrefix
  simp

/-- A ranged write that re-writes what is already present is the identity. -/
theorem setRowPrefix_eq_self (ws : Worksheet) (p : Nat) (vals : List String)
    (h : ∀ row, ws.cells.get? (p - 1) = some row → writePrefix row vals = row) :
    setRowPrefix ws p vals = ws := by
  obtain ⟨cells⟩ := ws
  unfold setRowPrefix
  congr 1
  apply List.ext_get?
  intro n
  rw [setRows_get?]
  by_cases hn : n = p - 1
  · rw [if_pos hn, hn]
    cases hc : cells.get? (p - 1) with
    | none => rfl
    | some row => simp [h row hc]
  · rw [if_neg hn]

/-- Updates that individually change nothing fold to the identity. -/
theorem applyUpdates_eq_self (ws : Worksheet) :
    ∀ (updates : List (Nat × List Value)),
      (∀ pv ∈ updates, setRowPrefix ws pv.1 (pv.2.map cellOf) = ws) →
      applyUpdates ws updates = ws := by
  intro updates
  induction updates with
  | nil => intro _; rfl
  | cons pv t ih =>
      intro h
      unfold applyUpdates
      rw [List.foldl_cons]
      have h0 := h pv (List.mem_cons_self pv t)
      rw [h0]
      exact ih fun q hq => h q (List.mem_cons_of_mem pv hq)

/-- Applying queued updates preserves the number of rows. -/
theorem applyUpdates_length (updates : List (Nat × List Value)) :
    ∀ (ws : Worksheet), (applyUpdates ws updates).cells.length = ws.cells.length := by
  induction updates with
  | nil => intro ws; rfl
  | cons pv t ih =>
      intro ws
      unfold applyUpdates at ih ⊢
      rw [List.foldl_cons, ih]
      unfold setRowPrefix
      exact setRows_length ws.cells (pv.1 - 1) (pv.2.map cellOf)

/-- Updates at data rows leave the header row untouched. -/
theorem applyUpdates_head (updates : List (Nat × List Value)) :
    ∀ (ws : Worksheet), (∀ pv ∈ updates, 2 ≤ pv.1) →
      (applyUpdates ws updates).cells.get? 0 = ws.cells.get? 0 := by
  induction updates with
  | nil => intro ws _; rfl
  | cons pv t ih =>
      intro ws h
      unfold applyUpdates
      rw [List.foldl_cons]
      have h2 : 2 ≤ pv.1 := h pv (List.mem_cons_self pv t)
      have hrec := ih (setRowPrefix ws pv.1 (pv.2.map cellOf))
        (fun q hq => h q (List.mem_cons_of_mem pv hq))
      unfold applyUpdates at hrec
      rw [hrec]
      unfold setRowPrefix
      rw [setRows_get?]
      have hne : (0 : Nat) ≠ pv.1 - 1 := by omega
      simp [hne]

/-- Setting a position to the value it already holds changes nothing. -/
theorem set_same {α : Type} (l : List α) (i : Nat) (a : α) (h : l.get? i = some a) :
    l.set i a = l := by
  apply List.ext_get?
  intro n
  rw [List.get?_set]
  by_cases hn : i = n
  · subst hn
    rw [if_pos rfl]
    rw [List.get?_eq_getElem?] at h
    simp [h]
  · simp [hn]

/-- The key column after a data-row ranged write: one cell replaced. -/
theorem keyColIdx_setRowPrefix (ws : Worksheet) (p : Nat) (vals : List String)
    (kidx : Nat) (hp : 2 ≤ p) (hk : kidx < vals.length) :
    keyColIdx (setRowPrefix ws p vals) kidx =
      (keyColIdx ws kidx).set (p - 2) (vals.getD kidx "") := by
  unfold keyColIdx setRowPrefix
  apply List.ext_get?
  intro n
  rw [List.get?_drop, List.get?_map, setRows_get?, List.get?_set, List.get?_drop,
    List.get?_map]
  by_cases hn : 1 + n = p - 1
  · have hn2 : p - 2 = n := by omega
    rw [if_pos hn, if_pos hn2]
    cases hc : ws.cells.get? (1 + n) with
    | none => rfl
    | some row =>
        have hax : (vals ++ List.drop vals.length row)[kidx]? = vals[kidx]? :=
          List.getElem?_append_left hk
        simp [writePrefix, hax]
  · have hn2 : ¬ (p - 2 = n) := by omega
    rw [if_neg hn, if_neg hn2]

/-- Updates whose written key cell matches the one already stored leave the
whole key column unchanged. -/
theorem keyColIdx_applyUpdates (kidx : Nat) (base : Worksheet) :
    ∀ (updates : List (Nat × List Value)) (w : Worksheet),
      keyColIdx w kidx = keyColIdx base kidx →
      (∀ pv ∈ updates, 2 ≤ pv.1 ∧ kidx < pv.2.length ∧
        (keyColIdx base kidx).get? (pv.1 - 2) = some ((pv.2.map cellOf).getD kidx "")) →
      keyColIdx (applyUpdates w updates) kidx = keyColIdx base kidx := by
  intro updates
  induction updates with
  | nil => intro w hw _; exact hw
  | cons pv t ih =>
      intro w hw h
      obtain ⟨hp, hk, hcell⟩ := h pv (List.mem_cons_self pv t)
      unfold applyUpdates
      rw [List.foldl_cons]
      have hstep : keyColIdx (setRowPrefix w pv.1 (pv.2.map cellOf)) kidx =
          keyColIdx base kidx := by
        rw [keyColIdx_setRowPrefix w pv.1 (pv.2.map cellOf) kidx hp
          (by rw [List.length_map]; exact hk), hw]
        exact set_same _ _ _ hcell
      exact ih (setRowPrefix w pv.1 (pv.2.map cellOf)) hstep
        (fun q hq => h q (List.mem_cons_of_mem pv hq))

/-- The key column after appends: the old column extended by the appended
rows' key cells. -/
theorem keyColIdx_appendRows (ws : Worksheet) (appends : List (List Value))
    (kidx : Nat) (hws : ws.cells ≠ []) :
    keyColIdx (appendRows ws appends) kidx =
      keyColIdx ws kidx ++ appends.map fun vals => (vals.map cellOf).getD kidx "" := by
  unfold keyColIdx appendRows
  rw [List.map_append]
  rw [List.drop_append_of_le_length (by
    rw [List.length_map]
    exact List.length_pos.mpr hws)]
  rw [List.map_map]
  rfl

/-- Appends leave existing rows alone. -/
theorem appendRows_get? (ws : Worksheet) (appends : List (List Value)) (n : Nat)
    (hn : n < ws.cells.length) :
    (appendRows ws appends).cells.get? n = ws.cells.get? n := by
  unfold appendRows
  exact List.get?_append hn

/-- Reading the appended region. -/
theorem appendRows_get?_right (ws : Worksheet) (appends : List (List Value)) (j : Nat) :
    (appendRows ws appends).cells.get? (ws.cells.length + j) =
      (appends.map (·.map cellOf)).get? j := by
  unfold appendRows
  rw [List.get?_append_right (by omega)]
  congr 1
  omega

/-- Splitting a last-occurrence search over an append. -/
theorem lastKeyIdx_append (l1 l2 : List String) (v : String) :
    lastKeyIdx (l1 ++ l2) v =
      match lastKeyIdx l2 v with
      | some j => some (l1.length + j)
      | none => lastKeyIdx l1 v := by
  induction l1 with
  | nil =>
      simp only [List.nil_append, List.length_nil, Nat.zero_add]
      cases lastKeyIdx l2 v <;> rfl
  | cons c t ih =>
      rw [List.cons_append]
      simp only [lastKeyIdx]
      rw [ih]
      cases h2 : lastKeyIdx l2 v with
      | some j =>
          simp only [h2, List.length_cons]
          exact congrArg some (by omega)
      | none => simp only [h2]

/-- A hit of the last-occurrence search reads back the searched value. -/
theorem lastKeyIdx_get (l : List String) :
    ∀ (v : String) (j : Nat), lastKeyIdx l v = some j →
      l.get? j = some v ∧ v ≠ "" := by
  induction l with
  | nil => intro v j h; exact absurd h (by simp [lastKeyIdx])
  | cons c t ih =>
      intro v j h
      unfold lastKeyIdx at h
      cases h1 : lastKeyIdx t v with
      | some j0 =>
          rw [h1] at h
          have hj := Option.some.inj h
          subst hj
          have := ih v j0 h1
          exact ⟨by simpa using this.1, this.2⟩
      | none =>
          rw [h1] at h
          by_cases hc : c = v ∧ v ≠ ""
          · rw [if_pos hc] at h
            have hj := Option.some.inj h
            subst hj
            exact ⟨by simp [hc.1], hc.2⟩
          · rw [if_neg hc] at h
            exact absurd h (by simp)

/-- The last-occurrence search misses values that are absent. -/
theorem lastKeyIdx_none_of_not_mem (l : List String) (v : String) (h : v ∉ l) :
    lastKeyIdx l v = none := by
  induction l with
  | nil => rfl
  | cons c t ih =>
      unfold lastKeyIdx
      rw [ih (fun hm => h (List.mem_cons_of_mem c hm))]
      have hc : ¬ (c = v ∧ v ≠ "") := by
        intro hcc
        exact h (hcc.1 ▸ List.mem_cons_self c t)
      rw [if_neg hc]

/-- The last-occurrence search finds a present non-empty value. -/
theorem lastKeyIdx_isSome_of_mem (l : List String) (v : String) (hv : v ≠ "")
    (h : v ∈ l) : (lastKeyIdx l v).isSome := by
  induction l with
  | nil => simp at h
  | cons c t ih =>
      unfold lastKeyIdx
      cases h1 : lastKeyIdx t v with
      | some j => simp
      | none =>
          rcases List.mem_cons.mp h with h | h
          · simp [h.symm, hv]
          · have := ih h
            rw [h1] at this
            simp at this

/-- In a duplicate-free column the last occurrence is the only one. -/
theorem lastKeyIdx_of_nodup (l : List String) :
    ∀ (v : String) (j : Nat), l.Nodup → l.get? j = some v → v ≠ "" →
      lastKeyIdx l v = some j := by
  induction l with
  | nil => intro v j _ h _; simp at h
  | cons c t ih =>
      intro v j hnd hj hv
      simp only [List.nodup_cons] at hnd
      cases j with
      | zero =>
          simp only [List.get?_cons_zero] at hj
          have hc := Option.some.inj hj
          subst hc
          unfold lastKeyIdx
          cases h1 : lastKeyIdx t c with
          | some j0 =>
              have hg := lastKeyIdx_get t c j0 h1
              have hmem : c ∈ t := List.get?_mem hg.1
              exact absurd hmem hnd.1
          | none => simp [hv]
      | succ j0 =>
          simp only [List.get?_cons_succ] at hj
          unfold lastKeyIdx
          rw [ih v j0 hnd.2 hj hv]

/-- After ensuring headers, row 1 starts with the declared headers and the
grid is non-empty. -/
theorem ensure_headers_row1 (ws : Worksheet) (headers : List String)
    (hne : headers ≠ []) :
    ∃ junk, (ensure_headers ws headers).cells.headD [] = headers ++ junk ∧
      (ensure_headers ws headers).cells ≠ [] := by
  unfold ensure_headers
  by_cases h1 : rowValues1 ws = headers
  · rw [if_pos h1]
    refine ⟨[], by rw [List.append_nil]; exact h1, ?_⟩
    intro hc
    unfold rowValues1 at h1
    rw [hc] at h1
    exact hne h1.symm
  · rw [if_neg h1]
    by_cases h2 : ws.cells = []
    · rw [if_pos h2]
      exact ⟨[], by simp, by simp⟩
    · rw [if_neg h2]
      unfold setRowPrefix
      cases hc : ws.cells with
      | nil => exact absurd hc h2
      | cons row rest =>
          refine ⟨row.drop headers.length, ?_, ?_⟩
          · simp [setRows, writePrefix]
          · simp [setRows]

/-- Ensuring headers on a grid whose first row already starts with them is
the identity. -/
theorem ensure_headers_of_prefix (ws : Worksheet) (headers : List String)
    (junk : List String) (hrow : ws.cells.headD [] = headers ++ junk)
    (hc : ws.cells ≠ []) :
    ensure_headers ws headers = ws := by
  unfold ensure_headers
  by_cases h1 : rowValues1 ws = headers
  · rw [if_pos h1]
  · rw [if_neg h1, if_neg hc]
    obtain ⟨cells⟩ := ws
    cases cells with
    | nil => exact absurd rfl hc
    | cons row rest =>
        simp only [List.headD_cons] at hrow
        unfold setRowPrefix
        simp only [setRows]
        congr 2
        rw [hrow]
        unfold writePrefix
        rw [List.drop_left]

/-- Lookup in the row index: the claim-level characterization (empty when
the key column is absent, otherwise the last row holding the non-empty
value, positions starting at 2). -/
theorem read_index_lookup_aux (ws : Worksheet) (key v : String) :
    List.lookup v (read_index_by_key ws key) =
      if key ∈ rowValues1 ws then
        (lastKeyIdx (keyColIdx ws ((rowValues1 ws).indexOf key)) v).map (2 + ·)
      else none := by
  unfold read_index_by_key
  by_cases hk : key ∈ rowValues1 ws
  · rw [if_pos hk, if_pos hk, lookup_buildIdx]
    have hcol : (colValues ws ((rowValues1 ws).indexOf key + 1)).drop 1 =
        keyColIdx ws ((rowValues1 ws).indexOf key) := rfl
    rw [hcol]
    cases lastKeyIdx (keyColIdx ws ((rowValues1 ws).indexOf key)) v <;>
      simp [List.lookup]
  · rw [if_neg hk, if_neg hk]; rfl

/-- The projected key cell of a record with a string key is that string. -/
theorem normalize_row_key_cell (headers : List String) (r : Rec) (key : String)
    (hmem : key ∈ headers) (hs : strKey r key = true) :
    ((normalize_row headers r).map cellOf).getD (headers.indexOf key) "" =
        pyStr (dget r key) ∧
      headers.indexOf key < (normalize_row headers r).length := by
  have hlt : headers.indexOf key < headers.length := List.indexOf_lt_length.mpr hmem
  have hget : headers.get ⟨headers.indexOf key, hlt⟩ = key := List.indexOf_get hlt
  obtain ⟨s, hv, hsne⟩ : ∃ s, dget r key = .vstr s ∧ s ≠ "" := by
    unfold strKey at hs
    cases hd : dget r key <;> rw [hd] at hs <;> simp at hs
    exact ⟨_, rfl, by simpa using hs⟩
  constructor
  · have h1 : (normalize_row headers r).get? (headers.indexOf key) =
        some (projectCellSpec (dget r key)) := by
      rw [normalize_row_eq_spec, List.get?_map]
      rw [show headers.get? (headers.indexOf key) =
        some (headers.get ⟨headers.indexOf key, hlt⟩) from List.get?_eq_get hlt]
      rw [hget]
      rfl
    rw [List.getD_eq_getElem?_getD, List.getElem?_map, ← List.get?_eq_getElem?, h1]
    show cellOf (projectCellSpec (dget r key)) = pyStr (dget r key)
    rw [hv]
    rfl
  · unfold normalize_row
    rw [List.length_map]
    exact hlt

/-- Data rows not touched by any queued update are unchanged. -/
theorem applyUpdates_rowAt_untouched (p : Nat) (hp : 2 ≤ p) :
    ∀ (updates : List (Nat × List Value)) (w : Worksheet),
      (∀ pv ∈ updates, 2 ≤ pv.1) →
      (∀ pv ∈ updates, pv.1 ≠ p) →
      (applyUpdates w updates).cells.get? (p - 1) = w.cells.get? (p - 1) := by
  intro updates
  induction updates with
  | nil => intro w _ _; rfl
  | cons pv t ih =>
      intro w h2 h
      unfold applyUpdates
      rw [List.foldl_cons]
      have hrec := ih (setRowPrefix w pv.1 (pv.2.map cellOf))
        (fun q hq => h2 q (List.mem_cons_of_mem pv hq))
        (fun q hq => h q (List.mem_cons_of_mem pv hq))
      unfold applyUpdates at hrec
      rw [hrec]
      unfold setRowPrefix
      rw [setRows_get?]
      have hne : pv.1 ≠ p := h pv (List.mem_cons_self pv t)
      have hq2 : 2 ≤ pv.1 := h2 pv (List.mem_cons_self pv t)
      rw [if_neg (by omega)]

/-- A row written (possibly repeatedly) with one fixed payload reads back as
the prefix-overwrite of the original row. -/
theorem applyUpdates_rowAt_written (p : Nat) (vals : List Value) (hp : 2 ≤ p) :
    ∀ (updates : List (Nat × List Value)) (w : Worksheet),
      (∀ pv ∈ updates, 2 ≤ pv.1) →
      (∀ pv ∈ updates, pv.1 = p → pv.2 = vals) →
      (p, vals) ∈ updates →
      (applyUpdates w updates).cells.get? (p - 1) =
        (w.cells.get? (p - 1)).map fun row => writePrefix row (vals.map cellOf) := by
  intro updates
  induction updates with
  | nil => intro w _ _ hmem; simp at hmem
  | cons pv t ih =>
      intro w h2 huni hmem
      unfold applyUpdates
      rw [List.foldl_cons]
      by_cases hq : pv.1 = p
      · have hv2 : pv.2 = vals := huni pv (List.mem_cons_self pv t) hq
        have hsetget : (setRowPrefix w pv.1 (pv.2.map cellOf)).cells.get? (p - 1) =
            (w.cells.get? (p - 1)).map fun row => writePrefix row (vals.map cellOf) := by
          unfold setRowPrefix
          rw [setRows_get?, hq, hv2, if_pos rfl]
        by_cases hmem2 : (p, vals) ∈ t
        · have hrec := ih (setRowPrefix w pv.1 (pv.2.map cellOf))
            (fun q hq' => h2 q (List.mem_cons_of_mem pv hq'))
            (fun q hq' => huni q (List.mem_cons_of_mem pv hq')) hmem2
          unfold applyUpdates at hrec
          rw [hrec, hsetget]
          cases hcell : w.cells.get? (p - 1) with
          | none => rfl
          | some row => simp [writePrefix_idem]
        · have hnone : ∀ q ∈ t, q.1 ≠ p := by
            intro q hq' hqp
            have hq2 := huni q (List.mem_cons_of_mem pv hq') hqp
            have : q = (p, vals) := by
              obtain ⟨q1, q2⟩ := q
              simp only at hqp hq2
              rw [hqp, hq2]
            exact hmem2 (this ▸ hq')
          have hrec := applyUpdates_rowAt_untouched p hp t
            (setRowPrefix w pv.1 (pv.2.map cellOf))
            (fun q hq' => h2 q (List.mem_cons_of_mem pv hq')) hnone
          unfold applyUpdates at hrec
          rw [hrec, hsetget]
      · have hmem2 : (p, vals) ∈ t := by
          rcases List.mem_cons.mp hmem with he | ht
          · exact absurd (congrArg Prod.fst he.symm) hq
          · exact ht
        have hrec := ih (setRowPrefix w pv.1 (pv.2.map cellOf))
          (fun q hq' => h2 q (List.mem_cons_of_mem pv hq'))
          (fun q hq' => huni q (List.mem_cons_of_mem pv hq')) hmem2
        unfold applyUpdates at hrec
        rw [hrec]
        have hq2 : 2 ≤ pv.1 := h2 pv (List.mem_cons_self pv t)
        unfold setRowPrefix
        rw [setRows_get?, if_neg (by omega)]

/-- A record's key field, when it is a non-empty string. -/
theorem strKey_elim (r : Rec) (key : String) (hs : strKey r key = true) :
    ∃ s, dget r key = .vstr s ∧ s ≠ "" := by
  unfold strKey at hs
  cases hd : dget r key <;> rw [hd] at hs <;> simp at hs
  exact ⟨_, rfl, by simpa using hs⟩

/-- Appends extend the grid by the appended rows. -/
theorem appendRows_length (ws : Worksheet) (appends : List (List Value)) :
    (appendRows ws appends).cells.length = ws.cells.length + appends.length := by
  unfold appendRows
  simp

/-- The head of a list whose first position reads back a value. -/
theorem headD_of_get?_zero (l : List (List String)) (x : List String)
    (h : l.get? 0 = some x) : l.headD [] = x := by
  cases l with
  | nil => simp at h
  | cons a t =>
      simp only [List.get?_cons_zero] at h
      simpa using Option.some.inj h

/-- Appending nothing is the identity. -/
theorem appendRows_nil (ws : Worksheet) : appendRows ws [] = ws := by
  obtain ⟨cells⟩ := ws
  simp [appendRows]

/-- After one upsert whose records all carry distinct non-empty string keys
under a declared key column, every record is stored: its key resolves in the
rebuilt row index, and the row found there already holds exactly the cells a
repeated ranged write would produce. -/
theorem upsert_first_call_state (ws0 : Worksheet) (headers : List String)
    (rows : List Rec) (key : String)
    (hkeys : ∀ r ∈ rows, strKey r key = true)
    (hnd : (rows.map fun r => pyStr (dget r key)).Nodup)
    (hmem : key ∈ headers) :
    (upsert_rows ws0 headers rows key).ws.cells ≠ [] ∧
    (∃ junk, (upsert_rows ws0 headers rows key).ws.cells.headD [] = headers ++ junk) ∧
    ∀ r ∈ rows, ∃ p row, 2 ≤ p ∧
      List.lookup (pyStr (dget r key))
        (read_index_by_key (upsert_rows ws0 headers rows key).ws key) = some p ∧
      (upsert_rows ws0 headers rows key).ws.cells.get? (p - 1) = some row ∧
      writePrefix row ((normalize_row headers r).map cellOf) = row := by
  have hhne : headers ≠ [] := by intro h0; rw [h0] at hmem; simp at hmem
  obtain ⟨junk, hrow1, hcne⟩ := ensure_headers_row1 ws0 headers hhne
  set wsE := ensure_headers ws0 headers with hwsE
  set idx1 := read_index_by_key wsE key with hidx1def
  set kidx := headers.indexOf key with hkidxdef
  set colE := keyColIdx wsE kidx with hcolEdef
  have hkE : key ∈ rowValues1 wsE := by
    show key ∈ wsE.cells.headD []
    rw [hrow1]
    exact List.mem_append_left _ hmem
  have hidxE : (rowValues1 wsE).indexOf key = kidx := by
    show (wsE.cells.headD []).indexOf key = kidx
    rw [hrow1, hkidxdef]
    exact List.indexOf_append_of_mem hmem
  have hlook1 : ∀ v, List.lookup v idx1 = (lastKeyIdx colE v).map (2 + ·) := by
    intro v
    rw [hidx1def, read_index_lookup_aux, if_pos hkE, hidxE, ← hcolEdef]
  have hops := collectOps_eq idx1 headers key rows
  set U := (collectOps idx1 headers key rows).1 with hUdef
  set A := (collectOps idx1 headers key rows).2 with hAdef
  have hUeq : U = (rows.filter fun r =>
      truthy (dget r key) && (List.lookup (pyStr (dget r key)) idx1).isSome).map
      fun r => ((List.lookup (pyStr (dget r key)) idx1).getD 0,
        normalize_row headers r) := by
    rw [hUdef, hops]
  have hAeq : A = (rows.filter fun r =>
      truthy (dget r key) && (List.lookup (pyStr (dget r key)) idx1).isNone).map
      (normalize_row headers) := by
    rw [hAdef, hops]
  have htruthy : ∀ r ∈ rows, truthy (dget r key) = true := by
    intro r hr
    obtain ⟨s, hv, hs⟩ := strKey_elim r key (hkeys r hr)
    rw [hv]
    simpa [truthy] using hs
  have hinj : ∀ r ∈ rows, ∀ r' ∈ rows,
      pyStr (dget r key) = pyStr (dget r' key) → r = r' :=
    fun r hr r' hr' h => List.inj_on_of_nodup_map hnd hr hr' h
  have hfound : ∀ r ∈ rows, (List.lookup (pyStr (dget r key)) idx1).isSome = true →
      ∃ j, lastKeyIdx colE (pyStr (dget r key)) = some j ∧
        List.lookup (pyStr (dget r key)) idx1 = some (2 + j) ∧
        colE.get? j = some (pyStr (dget r key)) := by
    intro r _ hsome
    cases hl : lastKeyIdx colE (pyStr (dget r key)) with
    | none => rw [hlook1, hl] at hsome; simp at hsome
    | some j =>
        refine ⟨j, rfl, ?_, (lastKeyIdx_get colE _ j hl).1⟩
        rw [hlook1, hl]
        rfl
  have hUmem : ∀ pv ∈ U, ∃ r, r ∈ rows ∧ ∃ j,
      lastKeyIdx colE (pyStr (dget r key)) = some j ∧
      colE.get? j = some (pyStr (dget r key)) ∧
      pv = (2 + j, normalize_row headers r) := by
    intro pv hpv
    rw [hUeq] at hpv
    obtain ⟨r, hrf, hpveq⟩ := List.mem_map.mp hpv
    have hrc := List.mem_filter.mp hrf
    have hsome : (List.lookup (pyStr (dget r key)) idx1).isSome = true := by
      have h2 := hrc.2
      simp only [Bool.and_eq_true] at h2
      exact h2.2
    obtain ⟨j, hlj, hlook, hcell⟩ := hfound r hrc.1 hsome
    refine ⟨r, hrc.1, j, hlj, hcell, ?_⟩
    rw [← hpveq]
    simp [hlook]
  have hU2 : ∀ pv ∈ U, 2 ≤ pv.1 ∧ kidx < pv.2.length ∧
      colE.get? (pv.1 - 2) = some ((pv.2.map cellOf).getD kidx "") := by
    intro pv hpv
    obtain ⟨r, hr, j, hlj, hcell, hpveq⟩ := hUmem pv hpv
    have hnk := normalize_row_key_cell headers r key hmem (hkeys r hr)
    subst hpveq
    refine ⟨by omega, ?_, ?_⟩
    · rw [hkidxdef]
      exact hnk.2
    · have h22 : 2 + j - 2 = j := by omega
      show colE.get? (2 + j - 2) = _
      rw [h22, hcell]
      congr 1
      rw [hkidxdef]
      exact hnk.1.symm
  have hU2' : ∀ pv ∈ U, 2 ≤ pv.1 := fun pv hpv => (hU2 pv hpv).1
  set wsU := applyUpdates wsE U with hwsUdef
  have hlenU : wsU.cells.length = wsE.cells.length := by
    rw [hwsUdef]
    exact applyUpdates_length U wsE
  have hwsUne : wsU.cells ≠ [] := by
    intro h0
    rw [h0] at hlenU
    exact hcne (List.length_eq_zero.mp hlenU.symm)
  have hcolU : keyColIdx wsU kidx = colE := by
    have hU2e := hU2
    rw [hcolEdef] at hU2e ⊢
    rw [hwsUdef]
    exact keyColIdx_applyUpdates kidx wsE U wsE rfl hU2e
  set ws1 := (upsert_rows ws0 headers rows key).ws with hws1def
  have hws1 : ws1 = appendRows wsU A := by
    rw [hws1def, upsert_rows_ws, ← hwsE, ← hidx1def, ← hUdef, ← hAdef, ← hwsUdef]
  have hlen1 : ws1.cells.length = wsE.cells.length + A.length := by
    rw [hws1, appendRows_length, hlenU]
  have hws1ne : ws1.cells ≠ [] := by
    intro h0
    rw [h0] at hlen1
    simp only [List.length_nil] at hlen1
    have hz : wsE.cells.length = 0 := by omega
    exact hcne (List.length_eq_zero.mp hz)
  have hhead1 : ws1.cells.get? 0 = wsE.cells.get? 0 := by
    rw [hws1]
    rw [appendRows_get? wsU A 0 (by rw [hlenU]; exact List.length_pos.mpr hcne)]
    rw [hwsUdef]
    exact applyUpdates_head U wsE hU2'
  have hget0 : wsE.cells.get? 0 = some (headers ++ junk) := by
    cases hc : wsE.cells with
    | nil => exact absurd hc hcne
    | cons a t =>
        rw [hc] at hrow1
        simp only [List.headD_cons] at hrow1
        rw [hrow1]
        rfl
  have hhead1D : ws1.cells.headD [] = headers ++ junk :=
    headD_of_get?_zero _ _ (by rw [hhead1]; exact hget0)
  have hk1 : key ∈ rowValues1 ws1 := by
    show key ∈ ws1.cells.headD []
    rw [hhead1D]
    exact List.mem_append_left _ hmem
  have hidx1E : (rowValues1 ws1).indexOf key = kidx := by
    show (ws1.cells.headD []).indexOf key = kidx
    rw [hhead1D, hkidxdef]
    exact List.indexOf_append_of_mem hmem
  set ks := A.map (fun vals => (vals.map cellOf).getD kidx "") with hksdef
  have hcol1 : keyColIdx ws1 kidx = colE ++ ks := by
    rw [hws1, keyColIdx_appendRows wsU A kidx hwsUne, hcolU, hksdef]
  have hlook2 : ∀ v, List.lookup v (read_index_by_key ws1 key) =
      (lastKeyIdx (colE ++ ks) v).map (2 + ·) := by
    intro v
    rw [read_index_lookup_aux, if_pos hk1, hidx1E, hcol1]
  have hksA : ks = (rows.filter fun r => truthy (dget r key) &&
      (List.lookup (pyStr (dget r key)) idx1).isNone).map
      (fun r => pyStr (dget r key)) := by
    rw [hksdef, hAeq, List.map_map]
    apply List.map_congr_left
    intro r hrf
    have hr : r ∈ rows := (List.mem_filter.mp hrf).1
    have hnk := normalize_row_key_cell headers r key hmem (hkeys r hr)
    show ((normalize_row headers r).map cellOf).getD kidx "" = pyStr (dget r key)
    rw [hkidxdef]
    exact hnk.1
  have hksnd : ks.Nodup := by
    rw [hksA]
    exact hnd.sublist ((List.filter_sublist rows).map _)
  have hclen : colE.length = wsE.cells.length - 1 := by
    rw [hcolEdef]
    unfold keyColIdx
    rw [List.length_drop, List.length_map]
  have hEpos : 0 < wsE.cells.length := List.length_pos.mpr hcne
  refine ⟨hws1ne, ⟨junk, hhead1D⟩, ?_⟩
  intro r hr
  by_cases hf : (List.lookup (pyStr (dget r key)) idx1).isSome = true
  · obtain ⟨j, hlj, hlook, hcell⟩ := hfound r hr hf
    obtain ⟨hjlt, _⟩ := List.get?_eq_some.mp hcell
    have hnotmem : pyStr (dget r key) ∉ ks := by
      rw [hksA]
      intro hmemks
      obtain ⟨r', hr'f, her⟩ := List.mem_map.mp hmemks
      have hr'c := List.mem_filter.mp hr'f
      have hnone' : (List.lookup (pyStr (dget r' key)) idx1).isNone = true := by
        have h2 := hr'c.2
        simp only [Bool.and_eq_true] at h2
        exact h2.2
      rw [her, Option.isNone_iff_eq_none] at hnone'
      rw [hnone'] at hf
      simp at hf
    have hlast2 : lastKeyIdx (colE ++ ks) (pyStr (dget r key)) = some j := by
      rw [lastKeyIdx_append]
      simp only [lastKeyIdx_none_of_not_mem ks _ hnotmem]
      exact hlj
    have hlookup2 : List.lookup (pyStr (dget r key))
        (read_index_by_key ws1 key) = some (2 + j) := by
      rw [hlook2, hlast2]
      rfl
    have huni : ∀ pv ∈ U, pv.1 = 2 + j → pv.2 = normalize_row headers r := by
      intro pv hpv hp1
      obtain ⟨r', hr', j', hlj', hcell', hpveq⟩ := hUmem pv hpv
      have hj' : j' = j := by
        rw [hpveq] at hp1
        simp at hp1
        omega
      subst hj'
      have heq : pyStr (dget r key) = pyStr (dget r' key) :=
        Option.some.inj (hcell.symm.trans hcell')
      have hrr : r' = r := hinj r' hr' r hr heq.symm
      rw [hpveq, hrr]
    have hmemU : (2 + j, normalize_row headers r) ∈ U := by
      rw [hUeq]
      apply List.mem_map.mpr
      refine ⟨r, List.mem_filter.mpr ⟨hr, ?_⟩, ?_⟩
      · simp [htruthy r hr, hf]
      · simp [hlook]
    have hrowU : (applyUpdates wsE U).cells.get? (2 + j - 1) =
        (wsE.cells.get? (2 + j - 1)).map
          fun row => writePrefix row ((normalize_row headers r).map cellOf) :=
      applyUpdates_rowAt_written (2 + j) (normalize_row headers r) (by omega)
        U wsE hU2' huni hmemU
    have hjlen : 2 + j - 1 < wsE.cells.length := by omega
    obtain ⟨oldrow, holdrow⟩ : ∃ row, wsE.cells.get? (2 + j - 1) = some row :=
      ⟨_, List.get?_eq_get hjlen⟩
    refine ⟨2 + j, writePrefix oldrow ((normalize_row headers r).map cellOf),
      by omega, hlookup2, ?_, writePrefix_idem _ _⟩
    rw [hws1]
    rw [appendRows_get? wsU A (2 + j - 1) (by rw [hlenU]; exact hjlen)]
    rw [hwsUdef, hrowU, holdrow]
    rfl
  · have hnone : List.lookup (pyStr (dget r key)) idx1 = none := by
      cases hl : List.lookup (pyStr (dget r key)) idx1 with
      | none => rfl
      | some p => rw [hl] at hf; simp at hf
    have hrnf : r ∈ rows.filter (fun r => truthy (dget r key) &&
        (List.lookup (pyStr (dget r key)) idx1).isNone) :=
      List.mem_filter.mpr ⟨hr, by simp [htruthy r hr, hnone]⟩
    have hmemks : pyStr (dget r key) ∈ ks := by
      rw [hksA]
      exact List.mem_map.mpr ⟨r, hrnf, rfl⟩
    obtain ⟨j, hj⟩ := List.mem_iff_get?.mp hmemks
    have hvne : pyStr (dget r key) ≠ "" := by
      obtain ⟨s, hv, hs⟩ := strKey_elim r key (hkeys r hr)
      rw [hv]
      exact hs
    have hlastks : lastKeyIdx ks (pyStr (dget r key)) = some j :=
      lastKeyIdx_of_nodup ks _ j hksnd hj hvne
    have hlast2 : lastKeyIdx (colE ++ ks) (pyStr (dget r key)) =
        some (colE.length + j) := by
      rw [lastKeyIdx_append]
      simp only [hlastks]
    have hlookup2 : List.lookup (pyStr (dget r key))
        (read_index_by_key ws1 key) = some (2 + (colE.length + j)) := by
      rw [hlook2, hlast2]
      rfl
    have hAj : A.get? j = some (normalize_row headers r) := by
      rw [hksdef, List.get?_map] at hj
      cases hAj' : A.get? j with
      | none => rw [hAj'] at hj; simp at hj
      | some vals =>
          rw [hAj'] at hj
          simp only [Option.map_some'] at hj
          have hkc : (vals.map cellOf).getD kidx "" = pyStr (dget r key) :=
            Option.some.inj hj
          have hvals : vals ∈ A := List.get?_mem hAj'
          rw [hAeq] at hvals
          obtain ⟨r', hr'f, hveq⟩ := List.mem_map.mp hvals
          have hr'c := List.mem_filter.mp hr'f
          have hnk' := normalize_row_key_cell headers r' key hmem (hkeys r' hr'c.1)
          have heq : pyStr (dget r' key) = pyStr (dget r key) := by
            rw [← hveq, hkidxdef, hnk'.1] at hkc
            exact hkc
          have hrr : r' = r := hinj r' hr'c.1 r hr heq
          rw [← hveq, hrr]
    have hidxeq : 2 + (colE.length + j) - 1 = wsU.cells.length + j := by
      rw [hlenU]
      omega
    refine ⟨2 + (colE.length + j), (normalize_row headers r).map cellOf,
      by omega, hlookup2, ?_, writePrefix_self _⟩
    rw [hws1, hidxeq, appendRows_get?_right wsU A j, List.get?_map, hAj]
    rfl

/-- C1 (counterexample to the literal claim): pushing one record twice with
identical input does NOT make the second call issue zero batched range
updates — matched rows are re-queued unconditionally (`if target_row:
updates.append(...)` performs no value comparison), so the second call still
performs one batch_update call at batch size 200. Appends are zero. -/
theorem upsert_second_call_issues_updates :
    (upsert_rows
        (upsert_rows ⟨[["job_id"]]⟩ ["job_id"] [[("job_id", .vstr "7")]] "job_id").ws
        ["job_id"] [[("job_id", .vstr "7")]] "job_id").updates ≠ [] ∧
    batchCallCount
      (upsert_rows
          (upsert_rows ⟨[["job_id"]]⟩ ["job_id"] [[("job_id", .vstr "7")]] "job_id").ws
          ["job_id"] [[("job_id", .vstr "7")]] "job_id").updates.length 200 = 1 := by
  decide

/-- C1 (amended): for records whose key field holds pairwise-distinct
non-empty strings under a declared key column, the second identical
upsert_rows call is idempotent in effect: it queues zero appends (hence zero
append_rows calls at any batch size), re-queues exactly one ranged update per
record (not zero, as every matched row is re-queued without diffing), and
leaves the worksheet state unchanged. -/
theorem upsert_rows_second_call (ws0 : Worksheet) (headers : List String)
    (rows : List Rec) (key : String)
    (hkeys : ∀ r ∈ rows, strKey r key = true)
    (hnd : (rows.map fun r => pyStr (dget r key)).Nodup)
    (hmem : key ∈ headers) :
    (upsert_rows (upsert_rows ws0 headers rows key).ws headers rows key).appends = [] ∧
    (∀ bs, batchCallCount
      (upsert_rows (upsert_rows ws0 headers rows key).ws headers rows key).appends.length
      bs = 0) ∧
    (upsert_rows (upsert_rows ws0 headers rows key).ws headers rows key).updates.length =
      rows.length ∧
    (upsert_rows (upsert_rows ws0 headers rows key).ws headers rows key).ws =
      (upsert_rows ws0 headers rows key).ws := by
  obtain ⟨hne, ⟨junk, hheadD⟩, hrows⟩ :=
    upsert_first_call_state ws0 headers rows key hkeys hnd hmem
  set ws1 := (upsert_rows ws0 headers rows key).ws with hws1def
  have hens : ensure_headers ws1 headers = ws1 :=
    ensure_headers_of_prefix ws1 headers junk hheadD hne
  set idx2 := read_index_by_key ws1 key with hidx2def
  have hops := collectOps_eq idx2 headers key rows
  have hpred : ∀ r ∈ rows,
      (truthy (dget r key) && (List.lookup (pyStr (dget r key)) idx2).isSome) = true := by
    intro r hr
    obtain ⟨p, row, hp2, hlook, hget, hwp⟩ := hrows r hr
    obtain ⟨s, hv, hs⟩ := strKey_elim r key (hkeys r hr)
    have ht : truthy (dget r key) = true := by
      rw [hv]
      simpa [truthy] using hs
    simp [ht, hlook]
  have hfilterAll : (rows.filter fun r =>
      truthy (dget r key) && (List.lookup (pyStr (dget r key)) idx2).isSome) = rows :=
    List.filter_eq_self.mpr hpred
  have hfilterNone : (rows.filter fun r =>
      truthy (dget r key) && (List.lookup (pyStr (dget r key)) idx2).isNone) = [] := by
    rw [List.filter_eq_nil_iff]
    intro r hr hcontra
    have h1 := hpred r hr
    simp only [Bool.and_eq_true] at h1 hcontra
    have h2 := hcontra.2
    rw [Option.isNone_iff_eq_none] at h2
    rw [h2] at h1
    simp at h1
  have hops1 : (collectOps idx2 headers key rows).1 =
      rows.map (fun r => ((List.lookup (pyStr (dget r key)) idx2).getD 0,
        normalize_row headers r)) := by
    rw [hops, hfilterAll]
  have hops2 : (collectOps idx2 headers key rows).2 = [] := by
    rw [hops, hfilterNone]
    rfl
  have happend2 : (upsert_rows ws1 headers rows key).appends = [] := by
    rw [upsert_rows_appends, hens, ← hidx2def, hops2]
  have hupd2 : (upsert_rows ws1 headers rows key).updates.length = rows.length := by
    rw [upsert_rows_updates, hens, ← hidx2def, hops1, List.length_map]
  have hsame : (upsert_rows ws1 headers rows key).ws = ws1 := by
    rw [upsert_rows_ws, hens, ← hidx2def, hops1, hops2, appendRows_nil]
    apply applyUpdates_eq_self
    intro pv hpv
    obtain ⟨r, hr, hpveq⟩ := List.mem_map.mp hpv
    obtain ⟨p, row, hp2, hlook, hget, hwp⟩ := hrows r hr
    have hpv1 : pv = (p, normalize_row headers r) := by
      rw [← hpveq]
      simp [hlook]
    rw [hpv1]
    apply setRowPrefix_eq_self
    intro row' hrow'
    rw [hget] at hrow'
    rw [← Option.some.inj hrow']
    exact hwp
  refine ⟨happend2, ?_, hupd2, hsame⟩
  intro bs
  rw [happend2]
  unfold batchCallCount
  by_cases hbs : bs = 0
  · rw [if_pos hbs]
  · rw [if_neg hbs]
    simp only [List.length_nil]
    exact Nat.div_eq_of_lt (by omega)

/-- C1 witness: one record with key "1" under header column "job_id"
satisfies the hypotheses, and the amended theorem applies. -/
theorem upsert_rows_second_call_witness :
    ((∀ r ∈ ([[("job_id", Value.vstr "1")]] : List Rec), strKey r "job_id" = true) ∧
      (([[("job_id", Value.vstr "1")]] : List Rec).map
        fun r => pyStr (dget r "job_id")).Nodup ∧
      "job_id" ∈ ["job_id"]) ∧
    ((upsert_rows (upsert_rows ⟨[["job_id"]]⟩ ["job_id"]
        [[("job_id", .vstr "1")]] "job_id").ws ["job_id"]
        [[("job_id", .vstr "1")]] "job_id").appends = [] ∧
      (∀ bs, batchCallCount
        (upsert_rows (upsert_rows ⟨[["job_id"]]⟩ ["job_id"]
          [[("job_id", .vstr "1")]] "job_id").ws ["job_id"]
          [[("job_id", .vstr "1")]] "job_id").appends.length bs = 0) ∧
      (upsert_rows (upsert_rows ⟨[["job_id"]]⟩ ["job_id"]
          [[("job_id", .vstr "1")]] "job_id").ws ["job_id"]
          [[("job_id", .vstr "1")]] "job_id").updates.length =
        ([[("job_id", Value.vstr "1")]] : List Rec).length ∧
      (upsert_rows (upsert_rows ⟨[["job_id"]]⟩ ["job_id"]
          [[("job_id", .vstr "1")]] "job_id").ws ["job_id"]
          [[("job_id", .vstr "1")]] "job_id").ws =
        (upsert_rows ⟨[["job_id"]]⟩ ["job_id"]
          [[("job_id", .vstr "1")]] "job_id").ws) :=
  ⟨⟨by decide, by decide, by decide⟩,
    upsert_rows_second_call ⟨[["job_id"]]⟩ ["job_id"]
      [[("job_id", .vstr "1")]] "job_id" (by decide) (by decide) (by decide)⟩
